import Mathlib

/-!
Verification of the order-dispatch scheduling engine (orders fed to a pool of
bots).  The definitions below are a shallow embedding of the reducer-based
hook implementation: pure helper functions, the reducer over explicit state,
and the surrounding timer bookkeeping of the hook (timer map keyed by bot id,
synchronised with bot state after every dispatch).  Wall-clock timestamps are
modelled as natural numbers carried by the events.
-/

set_option maxHeartbeats 1000000

namespace FeedMe

/-- Order priority tier: NORMAL or VIP (the spec calls these NORMAL and HIGH). -/
inductive OrderType
  | NORMAL
  | VIP
  deriving DecidableEq

/-- Order lifecycle status (the spec calls these PENDING, ASSIGNED, DONE). -/
inductive OrderStatus
  | PENDING
  | PROCESSING
  | COMPLETE
  deriving DecidableEq

/-- Bot status (the spec calls these IDLE and BUSY). -/
inductive BotStatus
  | IDLE
  | PROCESSING
  deriving DecidableEq

/-- An order: id, priority tier, status, creation time, optional completion time. -/
structure Order where
  id : Nat
  type : OrderType
  status : OrderStatus
  createdAt : Nat
  completedAt : Option Nat := none
  deriving DecidableEq

/-- A bot: id, status, and the order it currently holds (a snapshot copy,
as in the source, where the bot stores its own copy of the order record). -/
structure Bot where
  id : Nat
  status : BotStatus
  currentOrder : Option Order
  deriving DecidableEq

/-- The reducer state: ordered order sequence, bot list, and the two
identifier counters. -/
structure OrderSystemState where
  orders : List Order
  bots : List Bot
  orderIdCounter : Nat
  botIdCounter : Nat
  deriving DecidableEq

/-- The reducer actions.  ADD_ORDER and COMPLETE_ORDER carry the current
wall-clock instant used for createdAt and completedAt. -/
inductive OrderSystemAction
  | ADD_ORDER (orderType : OrderType) (now : Nat)
  | ADD_BOT
  | REMOVE_BOT
  | START_PROCESSING (botId orderId : Nat)
  | COMPLETE_ORDER (orderId botId : Nat) (now : Nat)
  | RETURN_TO_PENDING (orderId : Nat)
  deriving DecidableEq

/-- Fixed processing duration (milliseconds) from the source. -/
def PROCESSING_TIME : Nat := 10000

/-- An order is live when its status is PENDING or PROCESSING. -/
def Order.live (o : Order) : Bool :=
  decide (o.status = OrderStatus.PENDING) || decide (o.status = OrderStatus.PROCESSING)

/-- A live VIP order: the insertion anchor predicate used by the reduce in
insertOrderByPriority (VIP and status PENDING or PROCESSING). -/
def isLiveVip (o : Order) : Bool :=
  decide (o.type = OrderType.VIP) && Order.live o

/-- The reduce computing the index of the last VIP order in PENDING or
PROCESSING status: the accumulator starts at -1 and is replaced by the
current index whenever the predicate holds. -/
def lastVipIndexAux (i : Nat) (acc : Int) : List Order → Int
  | [] => acc
  | o :: rest => lastVipIndexAux (i + 1) (if isLiveVip o then (i : Int) else acc) rest

/-- Index of the last VIP PENDING-or-PROCESSING order, or -1 when none exists. -/
def lastVipIndex (orders : List Order) : Int :=
  lastVipIndexAux 0 (-1) orders

/-- Insert an order maintaining VIP priority: a VIP order is inserted right
after the last VIP PENDING-or-PROCESSING order (slice at lastVipIndex + 1);
a NORMAL order is appended to the end. -/
def insertOrderByPriority (orders : List Order) (newOrder : Order) : List Order :=
  if newOrder.type = OrderType.VIP then
    let pos := (lastVipIndex orders + 1).toNat
    orders.take pos ++ newOrder :: orders.drop pos
  else
    orders ++ [newOrder]

/-- Find the first PENDING order in sequence order. -/
def findNextPendingOrder (orders : List Order) : Option Order :=
  orders.find? (fun o => decide (o.status = OrderStatus.PENDING))

/-- Find the first IDLE bot in list order. -/
def findIdleBot (bots : List Bot) : Option Bot :=
  bots.find? (fun b => decide (b.status = BotStatus.IDLE))

/-- One binding step of the assignment loop: the found pending order becomes
PROCESSING and the found idle bot becomes PROCESSING holding a copy of that
order (with status PROCESSING), exactly as the two maps in the loop body. -/
def assignBind (s : OrderSystemState) (bot : Bot) (ord : Order) : OrderSystemState :=
  { s with
    orders := s.orders.map (fun o =>
      if o.id = ord.id then { o with status := OrderStatus.PROCESSING } else o),
    bots := s.bots.map (fun b =>
      if b.id = bot.id then
        { b with
          status := BotStatus.PROCESSING,
          currentOrder := some { ord with status := OrderStatus.PROCESSING } }
      else b) }

/-- Number of PENDING orders. -/
def countPending (orders : List Order) : Nat :=
  orders.countP (fun o => decide (o.status = OrderStatus.PENDING))

/-- Number of IDLE bots. -/
def countIdle (bots : List Bot) : Nat :=
  bots.countP (fun b => decide (b.status = BotStatus.IDLE))

/-- The assignment while-loop, with an explicit iteration budget.  Each
iteration turns one PENDING order into PROCESSING, so the loop reaches its
fixpoint within countPending iterations; fuel-independence beyond that bound
is proved below (autoAssignLoop_stable). -/
def autoAssignLoop : Nat → OrderSystemState → OrderSystemState
  | 0, s => s
  | fuel + 1, s =>
    match findIdleBot s.bots, findNextPendingOrder s.orders with
    | some bot, some ord => autoAssignLoop fuel (assignBind s bot ord)
    | _, _ => s

/-- Auto-assign orders to idle bots: keep binding the first idle bot to the
first pending order while both exist. -/
def autoAssignOrders (s : OrderSystemState) : OrderSystemState :=
  autoAssignLoop (countPending s.orders) s

/-- The reducer. -/
def orderSystemReducer (state : OrderSystemState) (action : OrderSystemAction) :
    OrderSystemState :=
  match action with
  | .ADD_ORDER orderType now =>
    let newOrder : Order :=
      { id := state.orderIdCounter, type := orderType,
        status := OrderStatus.PENDING, createdAt := now, completedAt := none }
    let ordersWithNew := insertOrderByPriority state.orders newOrder
    let stateWithOrder :=
      { state with orders := ordersWithNew, orderIdCounter := state.orderIdCounter + 1 }
    autoAssignOrders stateWithOrder
  | .ADD_BOT =>
    let newBot : Bot :=
      { id := state.botIdCounter, status := BotStatus.IDLE, currentOrder := none }
    let stateWithBot :=
      { state with bots := state.bots ++ [newBot], botIdCounter := state.botIdCounter + 1 }
    autoAssignOrders stateWithBot
  | .REMOVE_BOT =>
    match state.bots.getLast? with
    | none => state
    | some botToRemove =>
      let updatedOrders :=
        match botToRemove.currentOrder with
        | some cur =>
          state.orders.map (fun o =>
            if o.id = cur.id then { o with status := OrderStatus.PENDING } else o)
        | none => state.orders
      { state with orders := updatedOrders, bots := state.bots.dropLast }
  | .START_PROCESSING botId orderId =>
    match state.orders.find? (fun o => decide (o.id = orderId)) with
    | none => state
    | some ord =>
      { state with
        orders := state.orders.map (fun o =>
          if o.id = orderId then { o with status := OrderStatus.PROCESSING } else o),
        bots := state.bots.map (fun b =>
          if b.id = botId then
            { b with
              status := BotStatus.PROCESSING,
              currentOrder := some { ord with status := OrderStatus.PROCESSING } }
          else b) }
  | .COMPLETE_ORDER orderId botId now =>
    let updatedOrders := state.orders.map (fun o =>
      if o.id = orderId then
        { o with status := OrderStatus.COMPLETE, completedAt := some now }
      else o)
    let updatedBots := state.bots.map (fun b =>
      if b.id = botId then
        { b with status := BotStatus.IDLE, currentOrder := none }
      else b)
    autoAssignOrders { state with orders := updatedOrders, bots := updatedBots }
  | .RETURN_TO_PENDING orderId =>
    { state with orders := state.orders.map (fun o =>
        if o.id = orderId then { o with status := OrderStatus.PENDING } else o) }

/-- The initial reducer state. -/
def initialState : OrderSystemState :=
  { orders := [], bots := [], orderIdCounter := 1, botIdCounter := 1 }

/-- Projection: pending orders, in sequence order. -/
def pendingOrders (s : OrderSystemState) : List Order :=
  s.orders.filter (fun o => decide (o.status = OrderStatus.PENDING))

/-- Projection: processing orders, in sequence order. -/
def processingOrders (s : OrderSystemState) : List Order :=
  s.orders.filter (fun o => decide (o.status = OrderStatus.PROCESSING))

/-- Projection: completed orders, in sequence order. -/
def completedOrders (s : OrderSystemState) : List Order :=
  s.orders.filter (fun o => decide (o.status = OrderStatus.COMPLETE))

/-!
The hook level: the reducer state together with the timer map of the hook
(a JS Map from bot id to the scheduled completion payload; modelled as a
function from bot id to the optional order id carried by the scheduled
COMPLETE_ORDER dispatch).  After every dispatch the hook effect synchronises
the map with the bot list: a PROCESSING bot with a current order gets a timer
if it has none, any other bot has its timer cleared.
-/

/-- The full system state: reducer state plus the timer map. -/
structure SysState where
  rs : OrderSystemState
  timers : Nat → Option Nat

/-- One step of the timer-synchronisation effect for a single bot. -/
def syncStep (t : Nat → Option Nat) (bot : Bot) : Nat → Option Nat :=
  match bot.status, bot.currentOrder with
  | BotStatus.PROCESSING, some c =>
    if (t bot.id).isSome then t
    else fun i => if i = bot.id then some c.id else t i
  | _, _ => fun i => if i = bot.id then none else t i

/-- The timer-synchronisation effect over the whole bot list. -/
def syncTimers (bots : List Bot) (t : Nat → Option Nat) : Nat → Option Nat :=
  bots.foldl syncStep t

/-- The initial system state: empty reducer state, no timers. -/
def initSys : SysState :=
  { rs := initialState, timers := fun _ => none }

/-- The addOrder intent: dispatch ADD_ORDER, then synchronise timers. -/
def addOrderSys (ty : OrderType) (now : Nat) (s : SysState) : SysState :=
  let rs := orderSystemReducer s.rs (.ADD_ORDER ty now)
  { rs := rs, timers := syncTimers rs.bots s.timers }

/-- The addBot intent: dispatch ADD_BOT, then synchronise timers. -/
def addBotSys (s : SysState) : SysState :=
  let rs := orderSystemReducer s.rs .ADD_BOT
  { rs := rs, timers := syncTimers rs.bots s.timers }

/-- The removeBot intent: clear the timer of the last bot (if any), dispatch
REMOVE_BOT, then synchronise timers. -/
def removeBotSys (s : SysState) : SysState :=
  let t1 : Nat → Option Nat :=
    match s.rs.bots.getLast? with
    | some b => fun i => if i = b.id then none else s.timers i
    | none => s.timers
  let rs := orderSystemReducer s.rs .REMOVE_BOT
  { rs := rs, timers := syncTimers rs.bots t1 }

/-- A completion timer firing for a bot: if the bot has a scheduled timer,
the callback deletes its map entry and dispatches COMPLETE_ORDER with the
stored payload, then timers are synchronised; a cleared timer never fires. -/
def fireSys (botId : Nat) (now : Nat) (s : SysState) : SysState :=
  match s.timers botId with
  | some orderId =>
    let t1 : Nat → Option Nat := fun i => if i = botId then none else s.timers i
    let rs := orderSystemReducer s.rs (.COMPLETE_ORDER orderId botId now)
    { rs := rs, timers := syncTimers rs.bots t1 }
  | none => s

/-- The events driving the system from outside: the three user intents and
the timer-fire event for a given bot id. -/
inductive Event
  | addOrder (ty : OrderType) (now : Nat)
  | addBot
  | removeBot
  | fire (botId : Nat) (now : Nat)
  deriving DecidableEq

/-- One system step. -/
def stepSys (s : SysState) (e : Event) : SysState :=
  match e with
  | .addOrder ty now => addOrderSys ty now s
  | .addBot => addBotSys s
  | .removeBot => removeBotSys s
  | .fire b now => fireSys b now s

/-- Run a sequence of events from the initial system state. -/
def run (t : List Event) : SysState :=
  t.foldl stepSys initSys

/-- Number of addOrder events in a trace. -/
def countAddOrder (t : List Event) : Nat :=
  t.countP (fun e => match e with | .addOrder _ _ => true | _ => false)

/-- Number of addBot events in a trace. -/
def countAddBot (t : List Event) : Nat :=
  t.countP (fun e => match e with | .addBot => true | _ => false)

/-!  General list helpers. -/

lemma find?_split {α : Type} {p : α → Bool} {l : List α} {a : α}
    (h : l.find? p = some a) :
    ∃ l₁ l₂, l = l₁ ++ a :: l₂ ∧ ∀ x ∈ l₁, p x = false := by
  induction l with
  | nil => simp [List.find?] at h
  | cons x xs ih =>
    by_cases hx : p x = true
    · rw [List.find?_cons_of_pos _ hx] at h
      cases h
      exact ⟨[], xs, rfl, by simp⟩
    · rw [List.find?_cons_of_neg _ hx] at h
      obtain ⟨l₁, l₂, hl, hfalse⟩ := ih h
      refine ⟨x :: l₁, l₂, by rw [hl]; rfl, ?_⟩
      intro y hy
      rcases List.mem_cons.mp hy with rfl | hy
      · exact Bool.eq_false_iff.mpr hx
      · exact hfalse y hy

lemma countP_lt_of {α : Type} {p q : α → Bool} {l : List α}
    (hle : ∀ a ∈ l, q a = true → p a = true) {a : α} (ha : a ∈ l)
    (hpa : p a = true) (hqa : q a = false) : l.countP q < l.countP p := by
  induction l with
  | nil => exact absurd ha (List.not_mem_nil a)
  | cons x xs ih =>
    rw [List.countP_cons, List.countP_cons]
    rcases List.mem_cons.mp ha with h1 | h1
    · subst h1
      have hmono : xs.countP q ≤ xs.countP p :=
        List.countP_mono_left (fun b hb => hle b (List.mem_cons_of_mem _ hb))
      simp [hpa, hqa]
      omega
    · have hlt := ih (fun b hb hq => hle b (List.mem_cons_of_mem _ hb) hq) h1
      have hif : (if q x then 1 else 0) ≤ (if p x then 1 else 0) := by
        by_cases hq : q x = true
        · simp [hq, hle x (List.mem_cons_self x xs) hq]
        · simp [Bool.eq_false_iff.mpr hq]
      omega

lemma forall₂_mem_right {α β : Type} {R : α → β → Prop} {l : List α} {l' : List β}
    (h : List.Forall₂ R l l') {b : β} (hb : b ∈ l') : ∃ a ∈ l, R a b := by
  induction h with
  | nil => cases hb
  | cons hab _ ih =>
    rcases List.mem_cons.mp hb with rfl | hb
    · exact ⟨_, List.mem_cons_self _ _, hab⟩
    · obtain ⟨a, ha, har⟩ := ih hb
      exact ⟨a, List.mem_cons_of_mem _ ha, har⟩

lemma forall₂_mem_left {α β : Type} {R : α → β → Prop} {l : List α} {l' : List β}
    (h : List.Forall₂ R l l') {a : α} (ha : a ∈ l) : ∃ b ∈ l', R a b := by
  induction h with
  | nil => cases ha
  | cons hab _ ih =>
    rcases List.mem_cons.mp ha with rfl | ha
    · exact ⟨_, List.mem_cons_self _ _, hab⟩
    · obtain ⟨b, hb, hbr⟩ := ih ha
      exact ⟨b, List.mem_cons_of_mem _ hb, hbr⟩

lemma forall₂_trans {α : Type} {R : α → α → Prop}
    (htrans : ∀ a b c, R a b → R b c → R a c) :
    ∀ {l₁ l₂ l₃ : List α}, List.Forall₂ R l₁ l₂ → List.Forall₂ R l₂ l₃ →
      List.Forall₂ R l₁ l₃ := by
  intro l₁ l₂ l₃ h12 h23
  induction h12 generalizing l₃ with
  | nil => cases h23; exact List.Forall₂.nil
  | cons hab h ih =>
    cases h23 with
    | cons hbc h' => exact List.Forall₂.cons (htrans _ _ _ hab hbc) (ih h')

lemma filter_sublist_of_imp {α : Type} {p q : α → Bool} (l : List α)
    (h : ∀ a ∈ l, p a = true → q a = true) :
    (l.filter p).Sublist (l.filter q) := by
  induction l with
  | nil => exact List.Sublist.refl _
  | cons x xs ih =>
    have ih' := ih (fun a ha => h a (List.mem_cons_of_mem _ ha))
    by_cases hx : p x = true
    · rw [List.filter_cons_of_pos hx, List.filter_cons_of_pos (h x (List.mem_cons_self x xs) hx)]
      exact List.Sublist.cons₂ _ ih'
    · rw [List.filter_cons_of_neg hx]
      by_cases hq : q x = true
      · rw [List.filter_cons_of_pos hq]
        exact List.Sublist.cons _ ih'
      · rw [List.filter_cons_of_neg hq]
        exact ih'

/-!  The assignment loop: fixpoint, fuel stability, strict decrease. -/

lemma findNextPendingOrder_some {orders : List Order} {ord : Order}
    (h : findNextPendingOrder orders = some ord) :
    ord ∈ orders ∧ ord.status = OrderStatus.PENDING := by
  unfold findNextPendingOrder at h
  have hp := List.find?_some h
  exact ⟨List.mem_of_find?_eq_some h, of_decide_eq_true hp⟩

lemma findIdleBot_some {bots : List Bot} {bot : Bot}
    (h : findIdleBot bots = some bot) :
    bot ∈ bots ∧ bot.status = BotStatus.IDLE := by
  unfold findIdleBot at h
  have hp := List.find?_some h
  exact ⟨List.mem_of_find?_eq_some h, of_decide_eq_true hp⟩

lemma countPending_assignBind_lt {s : OrderSystemState} {ord : Order} (bot : Bot)
    (ho : findNextPendingOrder s.orders = some ord) :
    countPending (assignBind s bot ord).orders < countPending s.orders := by
  obtain ⟨hmem, hp⟩ := findNextPendingOrder_some ho
  have hle : ∀ a ∈ s.orders,
      ((fun o => decide (o.status = OrderStatus.PENDING)) ∘ fun o =>
        if o.id = ord.id then { o with status := OrderStatus.PROCESSING } else o) a = true →
      decide (a.status = OrderStatus.PENDING) = true := by
    intro a _ hq
    simp only [Function.comp] at hq
    split at hq
    · simp at hq
    · exact hq
  have hqa : ((fun o => decide (o.status = OrderStatus.PENDING)) ∘ fun o =>
      if o.id = ord.id then { o with status := OrderStatus.PROCESSING } else o) ord = false := by
    simp only [Function.comp]
    simp
  show List.countP (fun o => decide (o.status = OrderStatus.PENDING))
      (s.orders.map fun o =>
        if o.id = ord.id then { o with status := OrderStatus.PROCESSING } else o) <
    List.countP (fun o => decide (o.status = OrderStatus.PENDING)) s.orders
  rw [List.countP_map]
  exact countP_lt_of hle hmem (decide_eq_true hp) hqa

lemma countIdle_assignBind_lt {s : OrderSystemState} {bot : Bot} (ord : Order)
    (hb : findIdleBot s.bots = some bot) :
    countIdle (assignBind s bot ord).bots < countIdle s.bots := by
  obtain ⟨hmem, hp⟩ := findIdleBot_some hb
  have hle : ∀ a ∈ s.bots,
      ((fun b => decide (b.status = BotStatus.IDLE)) ∘ fun b =>
        if b.id = bot.id then
          { b with
            status := BotStatus.PROCESSING,
            currentOrder := some { ord with status := OrderStatus.PROCESSING } }
        else b) a = true →
      decide (a.status = BotStatus.IDLE) = true := by
    intro a _ hq
    simp only [Function.comp] at hq
    split at hq
    · simp at hq
    · exact hq
  have hqa : ((fun b => decide (b.status = BotStatus.IDLE)) ∘ fun b =>
      if b.id = bot.id then
        { b with
          status := BotStatus.PROCESSING,
          currentOrder := some { ord with status := OrderStatus.PROCESSING } }
      else b) bot = false := by
    simp only [Function.comp]
    simp
  show List.countP (fun b => decide (b.status = BotStatus.IDLE))
      (s.bots.map fun b =>
        if b.id = bot.id then
          { b with
            status := BotStatus.PROCESSING,
            currentOrder := some { ord with status := OrderStatus.PROCESSING } }
        else b) <
    List.countP (fun b => decide (b.status = BotStatus.IDLE)) s.bots
  rw [List.countP_map]
  exact countP_lt_of hle hmem (decide_eq_true hp) hqa

lemma autoAssignLoop_fix {s : OrderSystemState}
    (h : findIdleBot s.bots = none ∨ findNextPendingOrder s.orders = none) :
    ∀ n, autoAssignLoop n s = s := by
  intro n
  cases n with
  | zero => rfl
  | succ n =>
    unfold autoAssignLoop
    split
    · rename_i bot ord hfi hfp
      rcases h with h | h
      · rw [hfi] at h; cases h
      · rw [hfp] at h; cases h
    · rfl

lemma autoAssignLoop_succ {s : OrderSystemState} {bot : Bot} {ord : Order}
    (fuel : Nat) (hfi : findIdleBot s.bots = some bot)
    (hfp : findNextPendingOrder s.orders = some ord) :
    autoAssignLoop (fuel + 1) s = autoAssignLoop fuel (assignBind s bot ord) := by
  conv_lhs => unfold autoAssignLoop
  rw [hfi, hfp]

lemma find_of_countP_pos_pending {orders : List Order} {ord : Order}
    (h : findNextPendingOrder orders = some ord) : 0 < countPending orders := by
  obtain ⟨hmem, hp⟩ := findNextPendingOrder_some h
  exact List.countP_pos_iff.mpr ⟨ord, hmem, decide_eq_true hp⟩

lemma find_of_countP_pos_idle {bots : List Bot} {bot : Bot}
    (h : findIdleBot bots = some bot) : 0 < countIdle bots := by
  obtain ⟨hmem, hp⟩ := findIdleBot_some h
  exact List.countP_pos_iff.mpr ⟨bot, hmem, decide_eq_true hp⟩

lemma find_none_of_countPending_zero {orders : List Order}
    (h : countPending orders = 0) : findNextPendingOrder orders = none :=
  List.find?_eq_none.mpr (List.countP_eq_zero.mp h)

lemma find_none_of_countIdle_zero {bots : List Bot}
    (h : countIdle bots = 0) : findIdleBot bots = none :=
  List.find?_eq_none.mpr (List.countP_eq_zero.mp h)

lemma autoAssignLoop_stable :
    ∀ (fuel : Nat) (s : OrderSystemState),
      min (countIdle s.bots) (countPending s.orders) ≤ fuel →
      autoAssignLoop (fuel + 1) s = autoAssignLoop fuel s := by
  intro fuel
  induction fuel with
  | zero =>
    intro s hmin
    have h0 : countIdle s.bots = 0 ∨ countPending s.orders = 0 := by
      rcases Nat.le_zero.mp hmin with h
      rcases Nat.min_eq_zero_iff.mp h with h | h
      · exact Or.inl h
      · exact Or.inr h
    have h : findIdleBot s.bots = none ∨ findNextPendingOrder s.orders = none := by
      rcases h0 with h0 | h0
      · exact Or.inl (find_none_of_countIdle_zero h0)
      · exact Or.inr (find_none_of_countPending_zero h0)
    rw [autoAssignLoop_fix h 1]
    rfl
  | succ fuel ih =>
    intro s hmin
    rcases hfi : findIdleBot s.bots with _ | bot
    · rw [autoAssignLoop_fix (Or.inl hfi), autoAssignLoop_fix (Or.inl hfi)]
    · rcases hfp : findNextPendingOrder s.orders with _ | ord
      · rw [autoAssignLoop_fix (Or.inr hfp), autoAssignLoop_fix (Or.inr hfp)]
      · rw [autoAssignLoop_succ (fuel + 1) hfi hfp, autoAssignLoop_succ fuel hfi hfp]
        apply ih
        have h1 := countIdle_assignBind_lt ord hfi
        have h2 := countPending_assignBind_lt bot hfp
        have h3 : min (countIdle (assignBind s bot ord).bots)
            (countPending (assignBind s bot ord).orders) <
            min (countIdle s.bots) (countPending s.orders) :=
          lt_min (lt_of_le_of_lt (min_le_left _ _) h1) (lt_of_le_of_lt (min_le_right _ _) h2)
        omega

lemma autoAssignLoop_add {fuel : Nat} {s : OrderSystemState}
    (h : min (countIdle s.bots) (countPending s.orders) ≤ fuel) :
    ∀ k, autoAssignLoop (fuel + k) s = autoAssignLoop fuel s := by
  intro k
  induction k with
  | zero => rfl
  | succ k ih =>
    have : fuel + (k + 1) = (fuel + k) + 1 := by omega
    rw [this, autoAssignLoop_stable (fuel + k) s (le_trans h (Nat.le_add_right _ _)), ih]

lemma autoAssignLoop_eq_of_le {fuel₁ fuel₂ : Nat} {s : OrderSystemState}
    (h : min (countIdle s.bots) (countPending s.orders) ≤ fuel₁)
    (h2 : fuel₁ ≤ fuel₂) : autoAssignLoop fuel₂ s = autoAssignLoop fuel₁ s := by
  obtain ⟨k, rfl⟩ := Nat.exists_eq_add_of_le h2
  exact autoAssignLoop_add h k

lemma autoAssignOrders_none {s : OrderSystemState}
    (h : findIdleBot s.bots = none ∨ findNextPendingOrder s.orders = none) :
    autoAssignOrders s = s :=
  autoAssignLoop_fix h _

lemma autoAssignOrders_step {s : OrderSystemState} {bot : Bot} {ord : Order}
    (hfi : findIdleBot s.bots = some bot)
    (hfp : findNextPendingOrder s.orders = some ord) :
    autoAssignOrders s = autoAssignOrders (assignBind s bot ord) := by
  unfold autoAssignOrders
  have hpos : 0 < countPending s.orders := find_of_countP_pos_pending hfp
  obtain ⟨k, hk⟩ : ∃ k, countPending s.orders = k + 1 :=
    ⟨countPending s.orders - 1, by omega⟩
  rw [hk, autoAssignLoop_succ k hfi hfp]
  have hlt := countPending_assignBind_lt bot hfp
  exact autoAssignLoop_eq_of_le (min_le_right _ _) (by omega)

/-- The assignment loop always ends at a fixpoint: in the resulting state
there is no idle bot or no pending order. -/
lemma autoAssign_post_aux :
    ∀ (n : Nat) (s : OrderSystemState), countPending s.orders ≤ n →
      findIdleBot (autoAssignOrders s).bots = none ∨
        findNextPendingOrder (autoAssignOrders s).orders = none := by
  intro n
  induction n with
  | zero =>
    intro s h
    have h0 : findNextPendingOrder s.orders = none :=
      find_none_of_countPending_zero (Nat.le_zero.mp h)
    rw [autoAssignOrders_none (Or.inr h0)]
    exact Or.inr h0
  | succ n ih =>
    intro s h
    rcases hfi : findIdleBot s.bots with _ | bot
    · rw [autoAssignOrders_none (Or.inl hfi)]
      exact Or.inl hfi
    · rcases hfp : findNextPendingOrder s.orders with _ | ord
      · rw [autoAssignOrders_none (Or.inr hfp)]
        exact Or.inr hfp
      · rw [autoAssignOrders_step hfi hfp]
        have hlt := countPending_assignBind_lt bot hfp
        exact ih _ (by omega)

lemma autoAssign_post (s : OrderSystemState) :
    findIdleBot (autoAssignOrders s).bots = none ∨
      findNextPendingOrder (autoAssignOrders s).orders = none :=
  autoAssign_post_aux (countPending s.orders) s (le_refl _)

/-!  Structure preserved by the loop: counters and id sequences. -/

lemma assignBind_ids (s : OrderSystemState) (bot : Bot) (ord : Order) :
    (assignBind s bot ord).orders.map Order.id = s.orders.map Order.id ∧
      (assignBind s bot ord).bots.map Bot.id = s.bots.map Bot.id := by
  constructor
  · show (s.orders.map _).map Order.id = _
    rw [List.map_map]
    apply List.map_congr_left
    intro a _
    simp only [Function.comp]
    split <;> rfl
  · show (s.bots.map _).map Bot.id = _
    rw [List.map_map]
    apply List.map_congr_left
    intro a _
    simp only [Function.comp]
    split <;> rfl

lemma autoAssignLoop_counters :
    ∀ (fuel : Nat) (s : OrderSystemState),
      (autoAssignLoop fuel s).orderIdCounter = s.orderIdCounter ∧
        (autoAssignLoop fuel s).botIdCounter = s.botIdCounter := by
  intro fuel
  induction fuel with
  | zero => intro s; exact ⟨rfl, rfl⟩
  | succ fuel ih =>
    intro s
    rcases hfi : findIdleBot s.bots with _ | bot
    · rw [autoAssignLoop_fix (Or.inl hfi)]
      exact ⟨rfl, rfl⟩
    · rcases hfp : findNextPendingOrder s.orders with _ | ord
      · rw [autoAssignLoop_fix (Or.inr hfp)]
        exact ⟨rfl, rfl⟩
      · rw [autoAssignLoop_succ fuel hfi hfp]
        exact ih (assignBind s bot ord)

lemma autoAssignLoop_ids :
    ∀ (fuel : Nat) (s : OrderSystemState),
      (autoAssignLoop fuel s).orders.map Order.id = s.orders.map Order.id ∧
        (autoAssignLoop fuel s).bots.map Bot.id = s.bots.map Bot.id := by
  intro fuel
  induction fuel with
  | zero => intro s; exact ⟨rfl, rfl⟩
  | succ fuel ih =>
    intro s
    rcases hfi : findIdleBot s.bots with _ | bot
    · rw [autoAssignLoop_fix (Or.inl hfi)]
      exact ⟨rfl, rfl⟩
    · rcases hfp : findNextPendingOrder s.orders with _ | ord
      · rw [autoAssignLoop_fix (Or.inr hfp)]
        exact ⟨rfl, rfl⟩
      · rw [autoAssignLoop_succ fuel hfi hfp]
        obtain ⟨h1, h2⟩ := ih (assignBind s bot ord)
        obtain ⟨g1, g2⟩ := assignBind_ids s bot ord
        exact ⟨h1.trans g1, h2.trans g2⟩

lemma autoAssignOrders_counters (s : OrderSystemState) :
    (autoAssignOrders s).orderIdCounter = s.orderIdCounter ∧
      (autoAssignOrders s).botIdCounter = s.botIdCounter :=
  autoAssignLoop_counters _ s

lemma autoAssignOrders_ids (s : OrderSystemState) :
    (autoAssignOrders s).orders.map Order.id = s.orders.map Order.id ∧
      (autoAssignOrders s).bots.map Bot.id = s.bots.map Bot.id :=
  autoAssignLoop_ids _ s

/-!  Characterising the priority insertion. -/

/-- Structural description of the VIP insertion: walk the sequence and place
the new order right after the last live VIP order (at the front when no live
VIP exists). -/
def insertSpec : List Order → Order → List Order
  | [], new => [new]
  | o :: rest, new =>
    if rest.any isLiveVip then o :: insertSpec rest new
    else if isLiveVip o then o :: new :: rest
    else new :: o :: rest

/-- The position index of the last live VIP order (meaningful when one exists). -/
def liveVipLastIdx : List Order → Nat
  | [] => 0
  | _ :: rest => if rest.any isLiveVip then liveVipLastIdx rest + 1 else 0

lemma lastVipIndexAux_of_any_false :
    ∀ (l : List Order) (i : Nat) (acc : Int), l.any isLiveVip = false →
      lastVipIndexAux i acc l = acc := by
  intro l
  induction l with
  | nil => intro i acc _; rfl
  | cons o rest ih =>
    intro i acc h
    rw [List.any_cons] at h
    rcases Bool.or_eq_false_iff.mp h with ⟨h1, h2⟩
    show lastVipIndexAux (i + 1) (if isLiveVip o then (i : Int) else acc) rest = acc
    rw [ih _ _ h2, if_neg]
    simp [h1]

lemma lastVipIndexAux_of_any_true :
    ∀ (l : List Order) (i : Nat) (acc : Int), l.any isLiveVip = true →
      lastVipIndexAux i acc l = (i : Int) + (liveVipLastIdx l : Int) := by
  intro l
  induction l with
  | nil => intro i acc h; simp at h
  | cons o rest ih =>
    intro i acc h
    show lastVipIndexAux (i + 1) (if isLiveVip o then (i : Int) else acc) rest =
      (i : Int) + (liveVipLastIdx (o :: rest) : Int)
    by_cases hr : rest.any isLiveVip = true
    · rw [ih _ _ hr]
      show ((i + 1 : Nat) : Int) + (liveVipLastIdx rest : Int) = _
      have : liveVipLastIdx (o :: rest) = liveVipLastIdx rest + 1 := by
        show (if rest.any isLiveVip then liveVipLastIdx rest + 1 else 0) = _
        rw [if_pos hr]
      rw [this]
      push_cast
      ring
    · have hr' : rest.any isLiveVip = false := Bool.eq_false_iff.mpr hr
      have ho : isLiveVip o = true := by
        rw [List.any_cons, hr'] at h
        simpa using h
      rw [lastVipIndexAux_of_any_false rest _ _ hr', if_pos ho]
      have : liveVipLastIdx (o :: rest) = 0 := by
        show (if rest.any isLiveVip then liveVipLastIdx rest + 1 else 0) = 0
        rw [if_neg]
        simp [hr']
      rw [this]
      simp

lemma insertSpec_of_any_false {l : List Order} {new : Order}
    (h : l.any isLiveVip = false) : insertSpec l new = new :: l := by
  cases l with
  | nil => rfl
  | cons o rest =>
    rw [List.any_cons] at h
    rcases Bool.or_eq_false_iff.mp h with ⟨h1, h2⟩
    show (if rest.any isLiveVip then o :: insertSpec rest new
      else if isLiveVip o then o :: new :: rest else new :: o :: rest) = _
    rw [if_neg (by simp [h2]), if_neg (by simp [h1])]

lemma insert_take_drop :
    ∀ (l : List Order) (new : Order), l.any isLiveVip = true →
      l.take (liveVipLastIdx l + 1) ++ new :: l.drop (liveVipLastIdx l + 1) =
        insertSpec l new := by
  intro l
  induction l with
  | nil => intro new h; simp at h
  | cons o rest ih =>
    intro new h
    by_cases hr : rest.any isLiveVip = true
    · have hK : liveVipLastIdx (o :: rest) = liveVipLastIdx rest + 1 := by
        show (if rest.any isLiveVip then liveVipLastIdx rest + 1 else 0) = _
        rw [if_pos hr]
      have hS : insertSpec (o :: rest) new = o :: insertSpec rest new := by
        show (if rest.any isLiveVip then o :: insertSpec rest new
          else if isLiveVip o then o :: new :: rest else new :: o :: rest) = _
        rw [if_pos hr]
      rw [hK, hS, List.take_succ_cons, List.drop_succ_cons, List.cons_append, ih new hr]
    · have hr' : rest.any isLiveVip = false := Bool.eq_false_iff.mpr hr
      have ho : isLiveVip o = true := by
        rw [List.any_cons, hr'] at h
        simpa using h
      have hK : liveVipLastIdx (o :: rest) = 0 := by
        show (if rest.any isLiveVip then liveVipLastIdx rest + 1 else 0) = 0
        rw [if_neg (by simp [hr'])]
      have hS : insertSpec (o :: rest) new = o :: new :: rest := by
        show (if rest.any isLiveVip then o :: insertSpec rest new
          else if isLiveVip o then o :: new :: rest else new :: o :: rest) = _
        rw [if_neg (by simp [hr']), if_pos ho]
      rw [hK, hS]
      rfl

lemma insertOrderByPriority_vip {orders : List Order} {new : Order}
    (h : new.type = OrderType.VIP) :
    insertOrderByPriority orders new = insertSpec orders new := by
  unfold insertOrderByPriority
  rw [if_pos h]
  by_cases ha : orders.any isLiveVip = true
  · have hL : lastVipIndex orders = (liveVipLastIdx orders : Int) := by
      unfold lastVipIndex
      rw [lastVipIndexAux_of_any_true orders 0 (-1) ha]
      simp
    rw [hL]
    have hpos : ((liveVipLastIdx orders : Int) + 1).toNat = liveVipLastIdx orders + 1 := by
      omega
    rw [hpos]
    exact insert_take_drop orders new ha
  · have ha' : orders.any isLiveVip = false := Bool.eq_false_iff.mpr ha
    have hL : lastVipIndex orders = -1 := by
      unfold lastVipIndex
      exact lastVipIndexAux_of_any_false orders 0 (-1) ha'
    rw [hL, insertSpec_of_any_false ha']
    rfl

lemma insertOrderByPriority_normal {orders : List Order} {new : Order}
    (h : new.type = OrderType.NORMAL) :
    insertOrderByPriority orders new = orders ++ [new] := by
  unfold insertOrderByPriority
  rw [if_neg (by rw [h]; intro hc; cases hc)]

/-- The split characterisation of insertSpec: the sequence splits as
l₁ ++ l₂ with the new order going between them, no live VIP order occurs in
l₂, and l₁ is empty or ends with a live VIP order. -/
lemma insertSpec_split (orders : List Order) (new : Order) :
    ∃ l₁ l₂, orders = l₁ ++ l₂ ∧ insertSpec orders new = l₁ ++ new :: l₂ ∧
      (∀ x ∈ l₂, isLiveVip x = false) ∧
      (l₁ = [] ∨ ∃ init v, l₁ = init ++ [v] ∧ isLiveVip v = true) := by
  induction orders with
  | nil => exact ⟨[], [], rfl, rfl, by simp, Or.inl rfl⟩
  | cons o rest ih =>
    by_cases hr : rest.any isLiveVip = true
    · obtain ⟨l₁, l₂, hsplit, hspec, hl₂, hl₁⟩ := ih
      have hS : insertSpec (o :: rest) new = o :: insertSpec rest new := by
        show (if rest.any isLiveVip then o :: insertSpec rest new
          else if isLiveVip o then o :: new :: rest else new :: o :: rest) = _
        rw [if_pos hr]
      refine ⟨o :: l₁, l₂, by rw [hsplit]; rfl, by rw [hS, hspec]; rfl, hl₂, ?_⟩
      rcases hl₁ with h0 | ⟨init, v, hiv, hv⟩
      · exfalso
        subst h0
        simp only [List.nil_append] at hsplit
        obtain ⟨x, hx, hpx⟩ := List.any_eq_true.mp hr
        rw [hsplit] at hx
        rw [hl₂ x hx] at hpx
        cases hpx
      · exact Or.inr ⟨o :: init, v, by rw [hiv]; rfl, hv⟩
    · have hr' : rest.any isLiveVip = false := Bool.eq_false_iff.mpr hr
      by_cases ho : isLiveVip o = true
      · have hS : insertSpec (o :: rest) new = o :: new :: rest := by
          show (if rest.any isLiveVip then o :: insertSpec rest new
            else if isLiveVip o then o :: new :: rest else new :: o :: rest) = _
          rw [if_neg (by simp [hr']), if_pos ho]
        exact ⟨[o], rest, rfl, hS,
          fun x hx => Bool.eq_false_iff.mpr (List.any_eq_false.mp hr' x hx),
          Or.inr ⟨[], o, rfl, ho⟩⟩
      · have ho' : isLiveVip o = false := Bool.eq_false_iff.mpr ho
        have hS : insertSpec (o :: rest) new = new :: o :: rest := by
          show (if rest.any isLiveVip then o :: insertSpec rest new
            else if isLiveVip o then o :: new :: rest else new :: o :: rest) = _
          rw [if_neg (by simp [hr']), if_neg (by simp [ho'])]
        refine ⟨[], o :: rest, rfl, hS, ?_, Or.inl rfl⟩
        intro x hx
        rcases List.mem_cons.mp hx with rfl | hx
        · exact ho'
        · exact Bool.eq_false_iff.mpr (List.any_eq_false.mp hr' x hx)

lemma insertSpec_perm (orders : List Order) (new : Order) :
    (insertSpec orders new).Perm (new :: orders) := by
  obtain ⟨l₁, l₂, hsplit, hspec, _, _⟩ := insertSpec_split orders new
  rw [hspec, hsplit]
  exact List.perm_middle

lemma insertOrderByPriority_perm (orders : List Order) (new : Order) :
    (insertOrderByPriority orders new).Perm (new :: orders) := by
  cases ht : new.type with
  | NORMAL => rw [insertOrderByPriority_normal ht]; exact List.perm_append_singleton _ _
  | VIP => rw [insertOrderByPriority_vip ht]; exact insertSpec_perm orders new

/-!  The ordering invariant on the live subsequence. -/

/-- The live (PENDING or PROCESSING) subsequence of the order sequence. -/
def liveOrders (orders : List Order) : List Order :=
  orders.filter Order.live

/-- Priority ordering between two orders: VIP before NORMAL, identifiers
increasing inside each tier. -/
def prioBefore (a b : Order) : Prop :=
  match a.type, b.type with
  | OrderType.VIP, OrderType.VIP => a.id < b.id
  | OrderType.VIP, OrderType.NORMAL => True
  | OrderType.NORMAL, OrderType.NORMAL => a.id < b.id
  | OrderType.NORMAL, OrderType.VIP => False

/-- The ordering invariant: the live subsequence is pairwise ordered by
prioBefore (all VIP orders first, identifiers increasing in each tier). -/
def orderedLive (orders : List Order) : Prop :=
  (liveOrders orders).Pairwise prioBefore

lemma Order.live_iff {o : Order} :
    o.live = true ↔ (o.status = OrderStatus.PENDING ∨ o.status = OrderStatus.PROCESSING) := by
  unfold Order.live
  simp

lemma isLiveVip_iff {o : Order} :
    isLiveVip o = true ↔ (o.type = OrderType.VIP ∧ o.live = true) := by
  unfold isLiveVip
  simp

lemma type_eq_normal_of_live_not_vip {o : Order} (hl : o.live = true)
    (h : isLiveVip o = false) : o.type = OrderType.NORMAL := by
  cases ht : o.type with
  | NORMAL => rfl
  | VIP =>
    exfalso
    have : isLiveVip o = true := isLiveVip_iff.mpr ⟨ht, hl⟩
    rw [h] at this
    cases this

lemma prioBefore_vip_normal {a b : Order} (ha : a.type = OrderType.VIP)
    (hb : b.type = OrderType.NORMAL) : prioBefore a b := by
  unfold prioBefore
  rw [ha, hb]
  trivial

lemma prioBefore_vip_vip {a b : Order} (ha : a.type = OrderType.VIP)
    (hb : b.type = OrderType.VIP) (h : a.id < b.id) : prioBefore a b := by
  unfold prioBefore
  rw [ha, hb]
  exact h

lemma prioBefore_normal_normal {a b : Order} (ha : a.type = OrderType.NORMAL)
    (hb : b.type = OrderType.NORMAL) (h : a.id < b.id) : prioBefore a b := by
  unfold prioBefore
  rw [ha, hb]
  exact h

lemma prioBefore_normal_vip_false {a b : Order} (ha : a.type = OrderType.NORMAL)
    (hb : b.type = OrderType.VIP) (h : prioBefore a b) : False := by
  unfold prioBefore at h
  rw [ha, hb] at h
  exact h

lemma prioBefore_congr {a b a2 b2 : Order} (hia : a2.id = a.id) (hta : a2.type = a.type)
    (hib : b2.id = b.id) (htb : b2.type = b.type) (h : prioBefore a b) : prioBefore a2 b2 := by
  unfold prioBefore at h ⊢
  rw [hia, hta, hib, htb]
  exact h

lemma map_id_of_mem {α : Type} {f : α → α} {l : List α} (h : ∀ a ∈ l, f a = a) :
    l.map f = l := by
  induction l with
  | nil => rfl
  | cons x xs ih =>
    rw [List.map_cons, h x (List.mem_cons_self x xs),
      ih (fun a ha => h a (List.mem_cons_of_mem _ ha))]

lemma liveOrders_map_of_live_eq {f : Order → Order} {l : List Order}
    (h : ∀ o ∈ l, (f o).live = o.live) :
    liveOrders (l.map f) = (liveOrders l).map f := by
  unfold liveOrders
  rw [List.filter_map]
  congr 1
  apply List.filter_congr
  intro x hx
  simp only [Function.comp]
  rw [h x hx]

/-- A map that preserves id, type and liveness pointwise preserves the
ordering invariant. -/
lemma orderedLive_map_of_preserving {f : Order → Order} {l : List Order}
    (h : ∀ o ∈ l, (f o).id = o.id ∧ (f o).type = o.type ∧ (f o).live = o.live)
    (ho : orderedLive l) : orderedLive (l.map f) := by
  unfold orderedLive
  rw [liveOrders_map_of_live_eq (fun o hmem => (h o hmem).2.2)]
  rw [List.pairwise_map]
  apply List.Pairwise.imp_of_mem _ ho
  intro a b ha hb hab
  have ha' := h a (List.mem_of_mem_filter ha)
  have hb' := h b (List.mem_of_mem_filter hb)
  exact prioBefore_congr ha'.1 ha'.2.1 hb'.1 hb'.2.1 hab

/-- A map that either fixes an order or makes it dead preserves the ordering
invariant (the live subsequence only loses elements). -/
lemma orderedLive_map_of_kill {f : Order → Order} {l : List Order}
    (h : ∀ o ∈ l, f o = o ∨ (f o).live = false)
    (ho : orderedLive l) : orderedLive (l.map f) := by
  unfold orderedLive liveOrders
  rw [List.filter_map]
  have hid : (List.filter (Order.live ∘ f) l).map f = List.filter (Order.live ∘ f) l := by
    apply map_id_of_mem
    intro a ha
    have hlive := List.of_mem_filter ha
    rcases h a (List.mem_of_mem_filter ha) with h1 | h1
    · exact h1
    · exfalso
      simp only [Function.comp] at hlive
      rw [h1] at hlive
      cases hlive
  rw [hid]
  apply List.Pairwise.sublist _ ho
  apply filter_sublist_of_imp
  intro a ha hpf
  simp only [Function.comp] at hpf
  rcases h a ha with h1 | h1
  · rw [h1] at hpf
    exact hpf
  · rw [h1] at hpf
    cases hpf

/-- Inserting a fresh PENDING order with an identifier larger than every
existing identifier preserves the ordering invariant. -/
lemma insert_ordered {orders : List Order} {new : Order}
    (ho : orderedLive orders) (hid : ∀ o ∈ orders, o.id < new.id)
    (hst : new.status = OrderStatus.PENDING) :
    orderedLive (insertOrderByPriority orders new) := by
  have hlive : new.live = true := Order.live_iff.mpr (Or.inl hst)
  cases htype : new.type with
  | NORMAL =>
    rw [insertOrderByPriority_normal htype]
    unfold orderedLive liveOrders at ho ⊢
    rw [List.filter_append, List.pairwise_append]
    refine ⟨ho, by simp [hlive], ?_⟩
    intro a ha b hb
    have hb' : b = new := by
      rw [List.filter_cons_of_pos hlive] at hb
      simpa using hb
    subst hb'
    have haliv : a.live = true := List.of_mem_filter ha
    have hamem : a ∈ orders := List.mem_of_mem_filter ha
    cases hat : a.type with
    | VIP => exact prioBefore_vip_normal hat htype
    | NORMAL => exact prioBefore_normal_normal hat htype (hid a hamem)
  | VIP =>
    rw [insertOrderByPriority_vip htype]
    obtain ⟨l₁, l₂, hsplit, hspec, hl₂, hl₁⟩ := insertSpec_split orders new
    rw [hspec]
    subst hsplit
    unfold orderedLive liveOrders at ho ⊢
    rw [List.filter_append] at ho
    obtain ⟨h1, h2, hcross⟩ := List.pairwise_append.mp ho
    rw [List.filter_append, List.filter_cons_of_pos hlive, List.pairwise_append]
    refine ⟨h1, ?_, ?_⟩
    · rw [List.pairwise_cons]
      refine ⟨?_, h2⟩
      intro b hb
      have hbl : b.live = true := List.of_mem_filter hb
      have hbm : b ∈ l₂ := List.mem_of_mem_filter hb
      exact prioBefore_vip_normal htype (type_eq_normal_of_live_not_vip hbl (hl₂ b hbm))
    · intro a ha b hb
      have hal : a.live = true := List.of_mem_filter ha
      have ham : a ∈ l₁ := List.mem_of_mem_filter ha
      rcases List.mem_cons.mp hb with rfl | hb
      · cases hat : a.type with
        | VIP =>
          exact prioBefore_vip_vip hat htype (hid a (List.mem_append_left _ ham))
        | NORMAL =>
          exfalso
          rcases hl₁ with h0 | ⟨init, v, hiv, hv⟩
          · subst h0; cases ham
          · obtain ⟨hvt, hvl⟩ := isLiveVip_iff.mp hv
            subst hiv
            rw [List.filter_append, List.filter_cons_of_pos hvl] at h1
            obtain ⟨hi1, _, hicross⟩ := List.pairwise_append.mp h1
            rw [List.filter_append, List.filter_cons_of_pos hvl] at ha
            rcases List.mem_append.mp ha with ha' | ha'
            · have hprio := hicross a ha' v (List.mem_cons_self _ _)
              exact prioBefore_normal_vip_false hat hvt hprio
            · have : a = v := by simpa using ha'
              subst this
              rw [hat] at hvt
              cases hvt
      · exact hcross a ha b hb

/-!  Named pieces of the reducer cases, with their defining equations. -/

/-- The order created by the ADD_ORDER case. -/
def newOrderOf (s : OrderSystemState) (ty : OrderType) (now : Nat) : Order :=
  { id := s.orderIdCounter, type := ty, status := OrderStatus.PENDING,
    createdAt := now, completedAt := none }

/-- The bot created by the ADD_BOT case. -/
def newBotOf (s : OrderSystemState) : Bot :=
  { id := s.botIdCounter, status := BotStatus.IDLE, currentOrder := none }

/-- The ADD_ORDER case before the assignment pass: the new PENDING order
inserted by priority, the order counter bumped. -/
def addOrderMid (s : OrderSystemState) (ty : OrderType) (now : Nat) : OrderSystemState :=
  { s with
    orders := insertOrderByPriority s.orders (newOrderOf s ty now),
    orderIdCounter := s.orderIdCounter + 1 }

/-- The ADD_BOT case before the assignment pass: the new IDLE bot appended,
the bot counter bumped. -/
def addBotMid (s : OrderSystemState) : OrderSystemState :=
  { s with bots := s.bots ++ [newBotOf s], botIdCounter := s.botIdCounter + 1 }

/-- The COMPLETE_ORDER case before the assignment pass: the order marked
COMPLETE with its completion timestamp, the bot set back to IDLE. -/
def completeMid (s : OrderSystemState) (orderId botId now : Nat) : OrderSystemState :=
  { s with
    orders := s.orders.map (fun o =>
      if o.id = orderId then
        { o with status := OrderStatus.COMPLETE, completedAt := some now }
      else o),
    bots := s.bots.map (fun b =>
      if b.id = botId then { b with status := BotStatus.IDLE, currentOrder := none } else b) }

lemma reducer_addOrder (s : OrderSystemState) (ty : OrderType) (now : Nat) :
    orderSystemReducer s (.ADD_ORDER ty now) =
      autoAssignOrders (addOrderMid s ty now) := rfl

lemma reducer_addBot (s : OrderSystemState) :
    orderSystemReducer s .ADD_BOT = autoAssignOrders (addBotMid s) := rfl

lemma reducer_complete (s : OrderSystemState) (orderId botId now : Nat) :
    orderSystemReducer s (.COMPLETE_ORDER orderId botId now) =
      autoAssignOrders (completeMid s orderId botId now) := rfl

lemma reducer_removeBot_nil (s : OrderSystemState) (h : s.bots = []) :
    orderSystemReducer s .REMOVE_BOT = s := by
  unfold orderSystemReducer
  rw [h]
  rfl

lemma reducer_removeBot_some {s : OrderSystemState} {b : Bot}
    (h : s.bots.getLast? = some b) :
    orderSystemReducer s .REMOVE_BOT =
      { s with
        orders := match b.currentOrder with
          | some cur => s.orders.map (fun o =>
              if o.id = cur.id then { o with status := OrderStatus.PENDING } else o)
          | none => s.orders,
        bots := s.bots.dropLast } := by
  unfold orderSystemReducer
  rw [h]

lemma reducer_removeBot_busy {s : OrderSystemState} {b : Bot} {cur : Order}
    (h : s.bots.getLast? = some b) (hc : b.currentOrder = some cur) :
    orderSystemReducer s .REMOVE_BOT =
      { s with
        orders := s.orders.map (fun o =>
          if o.id = cur.id then { o with status := OrderStatus.PENDING } else o),
        bots := s.bots.dropLast } := by
  rw [reducer_removeBot_some h, hc]

lemma reducer_removeBot_idle {s : OrderSystemState} {b : Bot}
    (h : s.bots.getLast? = some b) (hc : b.currentOrder = none) :
    orderSystemReducer s .REMOVE_BOT = { s with bots := s.bots.dropLast } := by
  rw [reducer_removeBot_some h, hc]

/-!  The state invariant maintained by the reducer events. -/

/-- Invariant on reducer states: counters start at one, order identifiers
are exactly 1..orderIdCounter-1 (as a multiset), the live subsequence is
priority-ordered, bot identifiers strictly increase along the list and are
below the counter, every held order reference points at a PROCESSING order
in the sequence, and no two bots reference the same order. -/
structure CoreInv (s : OrderSystemState) : Prop where
  one_le_oc : 1 ≤ s.orderIdCounter
  one_le_bc : 1 ≤ s.botIdCounter
  ordersPerm : (s.orders.map Order.id).Perm (List.range' 1 (s.orderIdCounter - 1))
  ordered : orderedLive s.orders
  botsSorted : s.bots.Pairwise (fun a b => a.id < b.id)
  botsIdLt : ∀ b ∈ s.bots, b.id < s.botIdCounter
  botRef : ∀ b ∈ s.bots, ∀ c, b.currentOrder = some c →
    ∃ o ∈ s.orders, o.id = c.id ∧ o.status = OrderStatus.PROCESSING
  botRefDistinct : s.bots.Pairwise (fun a b => ∀ ca cb,
    a.currentOrder = some ca → b.currentOrder = some cb → ca.id ≠ cb.id)

lemma CoreInv.ordersNodup {s : OrderSystemState} (h : CoreInv s) :
    (s.orders.map Order.id).Nodup :=
  h.ordersPerm.symm.nodup (List.nodup_range' 1 _)

lemma CoreInv.ordersIdLt {s : OrderSystemState} (h : CoreInv s) :
    ∀ o ∈ s.orders, o.id < s.orderIdCounter := by
  intro o hmem
  have h1 : o.id ∈ s.orders.map Order.id := List.mem_map_of_mem _ hmem
  have h2 := h.ordersPerm.mem_iff.mp h1
  have h3 := List.mem_range'_1.mp h2
  have := h.one_le_oc
  omega

lemma CoreInv.botsIdsNodup {s : OrderSystemState} (h : CoreInv s) :
    (s.bots.map Bot.id).Nodup := by
  show (s.bots.map Bot.id).Pairwise (fun a b => a ≠ b)
  rw [List.pairwise_map]
  exact h.botsSorted.imp (fun hab => Nat.ne_of_lt hab)

lemma CoreInv.botsNodup {s : OrderSystemState} (h : CoreInv s) : s.bots.Nodup :=
  List.Nodup.of_map _ h.botsIdsNodup

lemma CoreInv.order_eq_of_id {s : OrderSystemState} (h : CoreInv s) {o1 o2 : Order}
    (h1 : o1 ∈ s.orders) (h2 : o2 ∈ s.orders) (hid : o1.id = o2.id) : o1 = o2 :=
  List.inj_on_of_nodup_map h.ordersNodup h1 h2 hid

lemma CoreInv.bot_eq_of_id {s : OrderSystemState} (h : CoreInv s) {b1 b2 : Bot}
    (h1 : b1 ∈ s.bots) (h2 : b2 ∈ s.bots) (hid : b1.id = b2.id) : b1 = b2 :=
  List.inj_on_of_nodup_map h.botsIdsNodup h1 h2 hid

lemma refDistinct_symm : Symmetric (fun a b : Bot => ∀ ca cb,
    a.currentOrder = some ca → b.currentOrder = some cb → ca.id ≠ cb.id) :=
  fun _ _ hxy cb ca hcb hca => (hxy ca cb hca hcb).symm

lemma coreInv_assignBind {s : OrderSystemState} {bot : Bot} {ord : Order}
    (h : CoreInv s) (hfi : findIdleBot s.bots = some bot)
    (hfp : findNextPendingOrder s.orders = some ord) :
    CoreInv (assignBind s bot ord) := by
  obtain ⟨hbm, hbs⟩ := findIdleBot_some hfi
  obtain ⟨hom, hos⟩ := findNextPendingOrder_some hfp
  obtain ⟨gids_o, gids_b⟩ := assignBind_ids s bot ord
  have hgid : ∀ x : Bot, ((fun b =>
      if b.id = bot.id then
        { b with
          status := BotStatus.PROCESSING,
          currentOrder := some { ord with status := OrderStatus.PROCESSING } }
      else b) x).id = x.id := by
    intro x
    by_cases hx : x.id = bot.id <;> simp [hx]
  constructor
  · exact h.one_le_oc
  · exact h.one_le_bc
  · rw [gids_o]
    exact h.ordersPerm
  · apply orderedLive_map_of_preserving _ h.ordered
    intro o hmem
    by_cases hid : o.id = ord.id
    · have hoe : o = ord := h.order_eq_of_id hmem hom hid
      subst hoe
      rw [if_pos rfl]
      refine ⟨rfl, rfl, ?_⟩
      show Order.live _ = Order.live o
      rw [Order.live_iff.mpr (Or.inr rfl)]
      rw [Order.live_iff.mpr (Or.inl hos)]
    · rw [if_neg hid]
      exact ⟨rfl, rfl, rfl⟩
  · show List.Pairwise _ (s.bots.map _)
    rw [List.pairwise_map]
    exact h.botsSorted.imp (fun {a b} hab => by rw [hgid a, hgid b]; exact hab)
  · intro b' hb'
    obtain ⟨b, hbmem, rfl⟩ := List.mem_map.mp hb'
    rw [hgid b]
    exact h.botsIdLt b hbmem
  · intro b' hb' c hc
    obtain ⟨b, hbmem, rfl⟩ := List.mem_map.mp hb'
    by_cases hid : b.id = bot.id
    · rw [if_pos hid] at hc
      have hce : c = { ord with status := OrderStatus.PROCESSING } := by
        cases hc
        rfl
      refine ⟨{ ord with status := OrderStatus.PROCESSING },
        ?_, by rw [hce], rfl⟩
      have : (fun o => if o.id = ord.id then { o with status := OrderStatus.PROCESSING }
          else o) ord = { ord with status := OrderStatus.PROCESSING } := by
        simp
      rw [← this]
      exact List.mem_map_of_mem _ hom
    · rw [if_neg hid] at hc
      obtain ⟨o1, ho1m, ho1id, ho1st⟩ := h.botRef b hbmem c hc
      have hne : ¬ o1.id = ord.id := by
        intro he
        have : o1 = ord := h.order_eq_of_id ho1m hom he
        rw [this, hos] at ho1st
        cases ho1st
      refine ⟨o1, ?_, ho1id, ho1st⟩
      have : (fun o => if o.id = ord.id then { o with status := OrderStatus.PROCESSING }
          else o) o1 = o1 := by
        simp [hne]
      rw [← this]
      exact List.mem_map_of_mem _ ho1m
  · show List.Pairwise _ (s.bots.map _)
    rw [List.pairwise_map]
    apply List.Pairwise.imp_of_mem _ (h.botsSorted.and h.botRefDistinct)
    intro a b hamem hbmem hab
    obtain ⟨hlt, hrel⟩ := hab
    intro ca cb hca hcb
    by_cases hida : a.id = bot.id
    · rw [if_pos hida] at hca
      have hb2 : ¬ b.id = bot.id := by
        rw [← hida]
        omega
      rw [if_neg hb2] at hcb
      have hcae : ca = { ord with status := OrderStatus.PROCESSING } := by
        cases hca
        rfl
      obtain ⟨o1, ho1m, ho1id, ho1st⟩ := h.botRef b hbmem cb hcb
      intro he
      rw [hcae] at he
      have : o1 = ord := h.order_eq_of_id ho1m hom (by rw [ho1id, ← he])
      rw [this, hos] at ho1st
      cases ho1st
    · rw [if_neg hida] at hca
      by_cases hidb : b.id = bot.id
      · rw [if_pos hidb] at hcb
        have hcbe : cb = { ord with status := OrderStatus.PROCESSING } := by
          cases hcb
          rfl
        obtain ⟨o1, ho1m, ho1id, ho1st⟩ := h.botRef a hamem ca hca
        intro he
        rw [hcbe] at he
        have : o1 = ord := h.order_eq_of_id ho1m hom (by rw [ho1id, he])
        rw [this, hos] at ho1st
        cases ho1st
      · rw [if_neg hidb] at hcb
        exact hrel ca cb hca hcb

lemma coreInv_loop : ∀ (fuel : Nat) (s : OrderSystemState),
    CoreInv s → CoreInv (autoAssignLoop fuel s) := by
  intro fuel
  induction fuel with
  | zero => intro s h; exact h
  | succ fuel ih =>
    intro s h
    rcases hfi : findIdleBot s.bots with _ | bot
    · rw [autoAssignLoop_fix (Or.inl hfi)]
      exact h
    · rcases hfp : findNextPendingOrder s.orders with _ | ord
      · rw [autoAssignLoop_fix (Or.inr hfp)]
        exact h
      · rw [autoAssignLoop_succ fuel hfi hfp]
        exact ih _ (coreInv_assignBind h hfi hfp)

lemma coreInv_autoAssign {s : OrderSystemState} (h : CoreInv s) :
    CoreInv (autoAssignOrders s) :=
  coreInv_loop _ s h

lemma coreInv_initial : CoreInv initialState := by
  constructor
  · exact le_refl 1
  · exact le_refl 1
  · show (List.map Order.id []).Perm (List.range' 1 0)
    rw [List.range'_zero]
    exact List.Perm.refl _
  · exact List.Pairwise.nil
  · exact List.Pairwise.nil
  · intro b hb; cases hb
  · intro b hb; cases hb
  · exact List.Pairwise.nil

lemma coreInv_addOrderMid {s : OrderSystemState} (ty : OrderType) (now : Nat)
    (h : CoreInv s) : CoreInv (addOrderMid s ty now) := by
  have hperm := insertOrderByPriority_perm s.orders (newOrderOf s ty now)
  constructor
  · show 1 ≤ s.orderIdCounter + 1
    omega
  · exact h.one_le_bc
  · show ((insertOrderByPriority s.orders (newOrderOf s ty now)).map Order.id).Perm
      (List.range' 1 (s.orderIdCounter + 1 - 1))
    have h1 := hperm.map Order.id
    rw [List.map_cons] at h1
    refine h1.trans ?_
    have hoc := h.one_le_oc
    have he : s.orderIdCounter + 1 - 1 = (s.orderIdCounter - 1) + 1 := by omega
    rw [he, List.range'_concat]
    rw [show 1 + 1 * (s.orderIdCounter - 1) = s.orderIdCounter from by omega]
    exact ((h.ordersPerm.cons s.orderIdCounter).trans
      (List.perm_append_singleton _ _).symm)
  · exact insert_ordered h.ordered (fun o hmem => h.ordersIdLt o hmem) rfl
  · exact h.botsSorted
  · exact h.botsIdLt
  · intro b hb c hc
    obtain ⟨o1, ho1, hid, hst⟩ := h.botRef b hb c hc
    exact ⟨o1, hperm.mem_iff.mpr (List.mem_cons_of_mem _ ho1), hid, hst⟩
  · exact h.botRefDistinct

lemma coreInv_addOrder {s : OrderSystemState} (ty : OrderType) (now : Nat)
    (h : CoreInv s) : CoreInv (orderSystemReducer s (.ADD_ORDER ty now)) := by
  rw [reducer_addOrder]
  exact coreInv_autoAssign (coreInv_addOrderMid ty now h)

lemma coreInv_addBotMid {s : OrderSystemState} (h : CoreInv s) :
    CoreInv (addBotMid s) := by
  constructor
  · exact h.one_le_oc
  · show 1 ≤ s.botIdCounter + 1
    omega
  · exact h.ordersPerm
  · exact h.ordered
  · show List.Pairwise _ (s.bots ++ [newBotOf s])
    rw [List.pairwise_append]
    refine ⟨h.botsSorted, List.pairwise_singleton _ _, ?_⟩
    intro a ha b hb
    have hbe : b = newBotOf s := by simpa using hb
    subst hbe
    exact h.botsIdLt a ha
  · intro b hb
    rcases List.mem_append.mp hb with hb | hb
    · have := h.botsIdLt b hb
      show b.id < s.botIdCounter + 1
      omega
    · have hbe : b = newBotOf s := by simpa using hb
      subst hbe
      show s.botIdCounter < s.botIdCounter + 1
      omega
  · intro b hb c hc
    rcases List.mem_append.mp hb with hb | hb
    · exact h.botRef b hb c hc
    · have hbe : b = newBotOf s := by simpa using hb
      subst hbe
      cases hc
  · show List.Pairwise _ (s.bots ++ [newBotOf s])
    rw [List.pairwise_append]
    refine ⟨h.botRefDistinct, List.pairwise_singleton _ _, ?_⟩
    intro a _ b hb ca cb _ hcb
    have hbe : b = newBotOf s := by simpa using hb
    subst hbe
    cases hcb

lemma coreInv_addBot {s : OrderSystemState} (h : CoreInv s) :
    CoreInv (orderSystemReducer s .ADD_BOT) := by
  rw [reducer_addBot]
  exact coreInv_autoAssign (coreInv_addBotMid h)

lemma coreInv_completeMid {s : OrderSystemState} {orderId botId : Nat} (now : Nat)
    (h : CoreInv s)
    (hval : ∃ bb ∈ s.bots, bb.id = botId ∧ ∃ c, bb.currentOrder = some c ∧ c.id = orderId) :
    CoreInv (completeMid s orderId botId now) := by
  obtain ⟨bb, hbbm, hbbid, c, hbbc, hcid⟩ := hval
  obtain ⟨o0, ho0m, ho0id, ho0st⟩ := h.botRef bb hbbm c hbbc
  have hgid : ∀ x : Bot, ((fun b =>
      if b.id = botId then { b with status := BotStatus.IDLE, currentOrder := none }
      else b) x).id = x.id := by
    intro x
    by_cases hx : x.id = botId <;> simp [hx]
  constructor
  · exact h.one_le_oc
  · exact h.one_le_bc
  · show ((s.orders.map _).map Order.id).Perm _
    rw [List.map_map]
    rw [show (Order.id ∘ fun o => if o.id = orderId then
        { o with status := OrderStatus.COMPLETE, completedAt := some now } else o) =
        Order.id from by
      funext a
      simp only [Function.comp]
      by_cases ha : a.id = orderId <;> simp [ha]]
    exact h.ordersPerm
  · apply orderedLive_map_of_kill _ h.ordered
    intro o _
    by_cases hid : o.id = orderId
    · right
      rw [if_pos hid]
      rfl
    · left
      rw [if_neg hid]
  · show List.Pairwise _ (s.bots.map _)
    rw [List.pairwise_map]
    exact h.botsSorted.imp (fun {a b} hab => by rw [hgid a, hgid b]; exact hab)
  · intro b' hb'
    obtain ⟨b, hbmem, rfl⟩ := List.mem_map.mp hb'
    rw [hgid b]
    exact h.botsIdLt b hbmem
  · intro b' hb' c' hc'
    obtain ⟨b, hbmem, rfl⟩ := List.mem_map.mp hb'
    by_cases hid : b.id = botId
    · rw [if_pos hid] at hc'
      cases hc'
    · rw [if_neg hid] at hc'
      obtain ⟨o1, ho1m, ho1id, ho1st⟩ := h.botRef b hbmem c' hc'
      have hbne : b ≠ bb := by
        intro he
        rw [he, hbbid] at hid
        exact hid rfl
      have hrel := (List.Pairwise.forall refDistinct_symm h.botRefDistinct)
        hbmem hbbm hbne c' c hc' hbbc
      have hne : ¬ o1.id = orderId := by
        rw [ho1id, ← hcid]
        exact hrel
      refine ⟨o1, ?_, ho1id, ho1st⟩
      have : (fun o => if o.id = orderId then
          { o with status := OrderStatus.COMPLETE, completedAt := some now } else o) o1
          = o1 := by
        simp [hne]
      rw [← this]
      exact List.mem_map_of_mem _ ho1m
  · show List.Pairwise _ (s.bots.map _)
    rw [List.pairwise_map]
    apply List.Pairwise.imp_of_mem _ h.botRefDistinct
    intro a b _ _ hab ca cb hca hcb
    by_cases hida : a.id = botId
    · rw [if_pos hida] at hca
      cases hca
    · rw [if_neg hida] at hca
      by_cases hidb : b.id = botId
      · rw [if_pos hidb] at hcb
        cases hcb
      · rw [if_neg hidb] at hcb
        exact hab ca cb hca hcb

lemma coreInv_complete {s : OrderSystemState} {orderId botId : Nat} (now : Nat)
    (h : CoreInv s)
    (hval : ∃ bb ∈ s.bots, bb.id = botId ∧ ∃ c, bb.currentOrder = some c ∧ c.id = orderId) :
    CoreInv (orderSystemReducer s (.COMPLETE_ORDER orderId botId now)) := by
  rw [reducer_complete]
  exact coreInv_autoAssign (coreInv_completeMid now h hval)

lemma getLast?_decomp {α : Type} {l : List α} {b : α} (h : l.getLast? = some b) :
    l = l.dropLast ++ [b] := by
  have hne : l ≠ [] := by
    intro h0
    rw [h0] at h
    cases h
  have := List.getLast?_eq_getLast l hne
  rw [this] at h
  have hb : l.getLast hne = b := by
    cases h
    rfl
  conv_lhs => rw [← List.dropLast_append_getLast hne]
  rw [hb]

lemma mem_of_getLast?_eq {α : Type} {l : List α} {b : α} (h : l.getLast? = some b) :
    b ∈ l := by
  rw [getLast?_decomp h]
  exact List.mem_append_right _ (List.mem_cons_self _ _)

lemma ne_last_of_mem_dropLast {s : OrderSystemState} (h : CoreInv s) {b b' : Bot}
    (hl : s.bots.getLast? = some b) (hb' : b' ∈ s.bots.dropLast) : b' ≠ b := by
  have hdec := getLast?_decomp hl
  have hnd : s.bots.Nodup := h.botsNodup
  rw [hdec] at hnd
  rw [List.nodup_append] at hnd
  intro he
  exact hnd.2.2 hb' (by rw [he]; exact List.mem_cons_self _ _)

lemma coreInv_removeBot {s : OrderSystemState} (h : CoreInv s) :
    CoreInv (orderSystemReducer s .REMOVE_BOT) := by
  rcases hl : s.bots.getLast? with _ | b
  · rw [reducer_removeBot_nil s (List.getLast?_eq_none_iff.mp hl)]
    exact h
  · have hbm : b ∈ s.bots := mem_of_getLast?_eq hl
    have hsub : s.bots.dropLast.Sublist s.bots := List.dropLast_sublist _
    rcases hc : b.currentOrder with _ | cur
    · rw [reducer_removeBot_idle hl hc]
      constructor
      · exact h.one_le_oc
      · exact h.one_le_bc
      · exact h.ordersPerm
      · exact h.ordered
      · exact h.botsSorted.sublist hsub
      · intro b' hb'
        exact h.botsIdLt b' (hsub.mem hb')
      · intro b' hb' c' hc'
        exact h.botRef b' (hsub.mem hb') c' hc'
      · exact h.botRefDistinct.sublist hsub
    · rw [reducer_removeBot_busy hl hc]
      obtain ⟨o0, ho0m, ho0id, ho0st⟩ := h.botRef b hbm cur hc
      constructor
      · exact h.one_le_oc
      · exact h.one_le_bc
      · show ((s.orders.map _).map Order.id).Perm _
        rw [List.map_map]
        rw [show (Order.id ∘ fun o => if o.id = cur.id then
            { o with status := OrderStatus.PENDING } else o) = Order.id from by
          funext a
          simp only [Function.comp]
          by_cases ha : a.id = cur.id <;> simp [ha]]
        exact h.ordersPerm
      · apply orderedLive_map_of_preserving _ h.ordered
        intro o hmem
        by_cases hid : o.id = cur.id
        · have hoe : o = o0 := h.order_eq_of_id hmem ho0m (by rw [hid, ho0id])
          rw [if_pos hid]
          refine ⟨rfl, rfl, ?_⟩
          show Order.live _ = Order.live o
          rw [Order.live_iff.mpr (Or.inl rfl)]
          rw [Order.live_iff.mpr (Or.inr (by rw [hoe]; exact ho0st))]
        · rw [if_neg hid]
          exact ⟨rfl, rfl, rfl⟩
      · exact h.botsSorted.sublist hsub
      · intro b' hb'
        exact h.botsIdLt b' (hsub.mem hb')
      · intro b' hb' c' hc'
        obtain ⟨o1, ho1m, ho1id, ho1st⟩ := h.botRef b' (hsub.mem hb') c' hc'
        have hbne : b' ≠ b := ne_last_of_mem_dropLast h hl hb'
        have hrel := (List.Pairwise.forall refDistinct_symm h.botRefDistinct)
          (hsub.mem hb') hbm hbne c' cur hc' hc
        have hne : ¬ o1.id = cur.id := by
          rw [ho1id]
          exact hrel
        refine ⟨o1, ?_, ho1id, ho1st⟩
        have : (fun o => if o.id = cur.id then
            { o with status := OrderStatus.PENDING } else o) o1 = o1 := by
          simp [hne]
        rw [← this]
        exact List.mem_map_of_mem _ ho1m
      · exact h.botRefDistinct.sublist hsub

/-!  How a bot can evolve across one assignment pass: unchanged, or from
IDLE to PROCESSING holding some order. -/

/-- Relation between a bot before and after the assignment pass. -/
def BotEvol (b b2 : Bot) : Prop :=
  b2.id = b.id ∧ (b2 = b ∨ (b.status = BotStatus.IDLE ∧
    b2.status = BotStatus.PROCESSING ∧ ∃ c, b2.currentOrder = some c))

lemma botEvol_refl (b : Bot) : BotEvol b b := ⟨rfl, Or.inl rfl⟩

lemma botEvol_trans (a b c : Bot) (h1 : BotEvol a b) (h2 : BotEvol b c) :
    BotEvol a c := by
  obtain ⟨hid1, h1⟩ := h1
  obtain ⟨hid2, h2⟩ := h2
  refine ⟨hid2.trans hid1, ?_⟩
  rcases h1 with rfl | ⟨ha, hb, hc⟩
  · exact h2
  · rcases h2 with rfl | ⟨hb2, hc2, hcc⟩
    · exact Or.inr ⟨ha, hb, hc⟩
    · rw [hb] at hb2
      cases hb2

lemma assignBind_botEvol {s : OrderSystemState} {bot : Bot} (ord : Order)
    (hnb : (s.bots.map Bot.id).Nodup)
    (hfi : findIdleBot s.bots = some bot) :
    List.Forall₂ BotEvol s.bots (assignBind s bot ord).bots := by
  obtain ⟨hbm, hbs⟩ := findIdleBot_some hfi
  show List.Forall₂ BotEvol s.bots (s.bots.map _)
  rw [List.forall₂_map_right_iff, List.forall₂_same]
  intro x hx
  by_cases hid : x.id = bot.id
  · have hxe : x = bot := List.inj_on_of_nodup_map hnb hx hbm hid
    constructor
    · simp [hid]
    · refine Or.inr ⟨by rw [hxe]; exact hbs, ?_, ?_⟩
      · simp [hid]
      · refine ⟨{ ord with status := OrderStatus.PROCESSING }, ?_⟩
        simp [hid]
  · constructor
    · simp [hid]
    · left
      simp [hid]

lemma autoAssignLoop_botEvol :
    ∀ (fuel : Nat) (s : OrderSystemState), CoreInv s →
      List.Forall₂ BotEvol s.bots (autoAssignLoop fuel s).bots := by
  intro fuel
  induction fuel with
  | zero =>
    intro s _
    exact List.forall₂_same.mpr (fun x _ => botEvol_refl x)
  | succ fuel ih =>
    intro s h
    rcases hfi : findIdleBot s.bots with _ | bot
    · rw [autoAssignLoop_fix (Or.inl hfi)]
      exact List.forall₂_same.mpr (fun x _ => botEvol_refl x)
    · rcases hfp : findNextPendingOrder s.orders with _ | ord
      · rw [autoAssignLoop_fix (Or.inr hfp)]
        exact List.forall₂_same.mpr (fun x _ => botEvol_refl x)
      · rw [autoAssignLoop_succ fuel hfi hfp]
        exact forall₂_trans botEvol_trans
          (assignBind_botEvol ord h.botsIdsNodup hfi)
          (ih _ (coreInv_assignBind h hfi hfp))

lemma autoAssign_botEvol {s : OrderSystemState} (h : CoreInv s) :
    List.Forall₂ BotEvol s.bots (autoAssignOrders s).bots :=
  autoAssignLoop_botEvol _ s h

lemma autoAssignLoop_botEvol_nodup :
    ∀ (fuel : Nat) (s : OrderSystemState), (s.bots.map Bot.id).Nodup →
      List.Forall₂ BotEvol s.bots (autoAssignLoop fuel s).bots := by
  intro fuel
  induction fuel with
  | zero =>
    intro s _
    exact List.forall₂_same.mpr (fun x _ => botEvol_refl x)
  | succ fuel ih =>
    intro s hnd
    rcases hfi : findIdleBot s.bots with _ | bot
    · rw [autoAssignLoop_fix (Or.inl hfi)]
      exact List.forall₂_same.mpr (fun x _ => botEvol_refl x)
    · rcases hfp : findNextPendingOrder s.orders with _ | ord
      · rw [autoAssignLoop_fix (Or.inr hfp)]
        exact List.forall₂_same.mpr (fun x _ => botEvol_refl x)
      · rw [autoAssignLoop_succ fuel hfi hfp]
        refine forall₂_trans botEvol_trans (assignBind_botEvol ord hnd hfi) (ih _ ?_)
        rw [(assignBind_ids s bot ord).2]
        exact hnd

lemma autoAssign_botEvol_nodup {s : OrderSystemState}
    (hnd : (s.bots.map Bot.id).Nodup) :
    List.Forall₂ BotEvol s.bots (autoAssignOrders s).bots :=
  autoAssignLoop_botEvol_nodup _ s hnd

/-!  The timer map: pointwise description of the synchronisation effect. -/

/-- The timer entry that the synchronisation effect maintains for a given
bot id: the current order id of the PROCESSING bot with that id, if any. -/
def derivedTimer (bots : List Bot) (i : Nat) : Option Nat :=
  match bots.find? (fun b => decide (b.id = i)) with
  | some b =>
    match b.status, b.currentOrder with
    | BotStatus.PROCESSING, some c => some c.id
    | _, _ => none
  | none => none

lemma syncStep_other {t : Nat → Option Nat} {b : Bot} {i : Nat} (h : i ≠ b.id) :
    syncStep t b i = t i := by
  unfold syncStep
  cases hst : b.status <;> cases hco : b.currentOrder <;> simp [h]
  split
  · rfl
  · simp [h]

lemma syncTimers_not_mem :
    ∀ (bots : List Bot) (t : Nat → Option Nat) (i : Nat),
      (∀ b ∈ bots, b.id ≠ i) → syncTimers bots t i = t i := by
  intro bots
  induction bots with
  | nil => intro t i _; rfl
  | cons b0 rest ih =>
    intro t i hno
    show syncTimers rest (syncStep t b0) i = t i
    rw [ih _ i (fun b hb => hno b (List.mem_cons_of_mem _ hb))]
    exact syncStep_other (fun he => hno b0 (List.mem_cons_self _ _) he.symm)

lemma syncTimers_apply :
    ∀ (bots : List Bot) (t : Nat → Option Nat) (i : Nat),
      (bots.map Bot.id).Nodup →
      syncTimers bots t i =
        (match bots.find? (fun b => decide (b.id = i)) with
          | none => t i
          | some b =>
            match b.status, b.currentOrder with
            | BotStatus.PROCESSING, some c => if (t i).isSome then t i else some c.id
            | _, _ => none) := by
  intro bots
  induction bots with
  | nil => intro t i _; rfl
  | cons b0 rest ih =>
    intro t i hnd
    rw [List.map_cons, List.nodup_cons] at hnd
    obtain ⟨hnotin, hnd'⟩ := hnd
    by_cases hid : b0.id = i
    · have hf : (b0 :: rest).find? (fun b => decide (b.id = i)) = some b0 :=
        List.find?_cons_of_pos _ (by simp [hid])
      rw [hf]
      have hrest : ∀ b ∈ rest, b.id ≠ i := by
        intro b hb he
        apply hnotin
        rw [hid, ← he]
        exact List.mem_map_of_mem _ hb
      show syncTimers rest (syncStep t b0) i = _
      rw [syncTimers_not_mem rest _ i hrest]
      subst hid
      unfold syncStep
      cases hst : b0.status <;> cases hco : b0.currentOrder <;> simp [hst, hco]
      split
      · rfl
      · simp
    · have hf : (b0 :: rest).find? (fun b => decide (b.id = i)) =
          rest.find? (fun b => decide (b.id = i)) :=
        List.find?_cons_of_neg _ (by simp [hid])
      rw [hf]
      show syncTimers rest (syncStep t b0) i = _
      rw [ih (syncStep t b0) i hnd']
      rw [syncStep_other (fun he => hid he.symm)]

/-- Correctness of the timer map: every entry is exactly the derived entry. -/
def timersOk (s : SysState) : Prop :=
  ∀ i, s.timers i = derivedTimer s.rs.bots i

lemma timersOk_sync {bots₀ bots₁ : List Bot} {t : Nat → Option Nat}
    (hnd : (bots₁.map Bot.id).Nodup)
    (hev : List.Forall₂ BotEvol bots₀ bots₁)
    (hpre : ∀ i, t i = none ∨ ∃ b0 ∈ bots₀, b0.id = i ∧
      b0.status = BotStatus.PROCESSING ∧
      ∃ c0, b0.currentOrder = some c0 ∧ t i = some c0.id) :
    ∀ i, syncTimers bots₁ t i = derivedTimer bots₁ i := by
  intro i
  rw [syncTimers_apply bots₁ t i hnd]
  unfold derivedTimer
  rcases hf : bots₁.find? (fun b => decide (b.id = i)) with _ | b1
  · rw [hf]
    rcases hpre i with hnone | ⟨b0, hb0m, hb0id, _, c0, _, _⟩
    · exact hnone
    · exfalso
      obtain ⟨b1', hb1m, hevb⟩ := forall₂_mem_left hev hb0m
      have hb1id : b1'.id = i := by rw [hevb.1, hb0id]
      exact (List.find?_eq_none.mp hf b1' hb1m) (by simp [hb1id])
  · rw [hf]
    have hb1mem := List.mem_of_find?_eq_some hf
    have hd := List.find?_some hf
    have hb1id : b1.id = i := of_decide_eq_true hd
    cases hst : b1.status with
    | IDLE => cases hco : b1.currentOrder <;> simp [hst, hco]
    | PROCESSING =>
      cases hco : b1.currentOrder with
      | none => simp [hst, hco]
      | some c1 =>
        simp only [hst, hco]
        show (if (t i).isSome then t i else some c1.id) = some c1.id
        rcases hpre i with hnone | ⟨b0, hb0m, hb0id, hb0st, c0, hb0c, hti⟩
        · rw [hnone]
          rfl
        · rw [hti]
          obtain ⟨b1', hb1m', hevb⟩ := forall₂_mem_left hev hb0m
          have : b1' = b1 := by
            apply List.inj_on_of_nodup_map hnd hb1m' hb1mem
            rw [hevb.1, hb0id, hb1id]
          subst this
          rcases hevb.2 with he | ⟨hidle, _, _⟩
          · rw [he] at hco
            rw [hco] at hb0c
            cases hb0c
            rfl
          · rw [hb0st] at hidle
            cases hidle

/-!  The full system invariant and its preservation by every event. -/

/-- System invariant: the reducer invariant plus correctness of the timer
map. -/
structure TInv (s : SysState) : Prop where
  core : CoreInv s.rs
  tok : timersOk s

lemma hpre_of_timersOk {s : SysState} (ht : timersOk s) :
    ∀ i, s.timers i = none ∨ ∃ b0 ∈ s.rs.bots, b0.id = i ∧
      b0.status = BotStatus.PROCESSING ∧
      ∃ c0, b0.currentOrder = some c0 ∧ s.timers i = some c0.id := by
  intro i
  have hti := ht i
  unfold derivedTimer at hti
  rcases hf : s.rs.bots.find? (fun b => decide (b.id = i)) with _ | b
  · rw [hf] at hti
    exact Or.inl hti
  · rw [hf] at hti
    have hbm := List.mem_of_find?_eq_some hf
    have hd := List.find?_some hf
    have hbid : b.id = i := of_decide_eq_true hd
    cases hst : b.status with
    | IDLE =>
      cases hco : b.currentOrder <;> simp only [hst, hco] at hti <;> exact Or.inl hti
    | PROCESSING =>
      cases hco : b.currentOrder with
      | none =>
        simp only [hst, hco] at hti
        exact Or.inl hti
      | some c =>
        simp only [hst, hco] at hti
        exact Or.inr ⟨b, hbm, hbid, hst, c, hco, hti⟩

lemma timer_valid {s : SysState} (ht : timersOk s) {botId orderId : Nat}
    (hT : s.timers botId = some orderId) :
    ∃ bb ∈ s.rs.bots, bb.id = botId ∧ bb.status = BotStatus.PROCESSING ∧
      ∃ c, bb.currentOrder = some c ∧ c.id = orderId := by
  have hti := ht botId
  rw [hT] at hti
  unfold derivedTimer at hti
  rcases hf : s.rs.bots.find? (fun b => decide (b.id = botId)) with _ | b
  · rw [hf] at hti
    cases hti
  · rw [hf] at hti
    have hbm := List.mem_of_find?_eq_some hf
    have hd := List.find?_some hf
    have hbid : b.id = botId := of_decide_eq_true hd
    cases hst : b.status with
    | IDLE => cases hco : b.currentOrder <;> simp only [hst, hco] at hti <;> cases hti
    | PROCESSING =>
      cases hco : b.currentOrder with
      | none =>
        simp only [hst, hco] at hti
        cases hti
      | some c =>
        simp only [hst, hco] at hti
        exact ⟨b, hbm, hbid, hst, c, hco, (Option.some.inj hti).symm⟩

lemma fireSys_none {s : SysState} {botId now : Nat} (hT : s.timers botId = none) :
    fireSys botId now s = s := by
  unfold fireSys
  rw [hT]

lemma fireSys_some {s : SysState} {botId orderId : Nat} (now : Nat)
    (hT : s.timers botId = some orderId) :
    fireSys botId now s =
      { rs := orderSystemReducer s.rs (.COMPLETE_ORDER orderId botId now),
        timers := syncTimers
          (orderSystemReducer s.rs (.COMPLETE_ORDER orderId botId now)).bots
          (fun i => if i = botId then none else s.timers i) } := by
  unfold fireSys
  rw [hT]

lemma removeBotSys_nil {s : SysState} (h : s.rs.bots = []) : removeBotSys s = s := by
  have h1 : orderSystemReducer s.rs .REMOVE_BOT = s.rs := reducer_removeBot_nil _ h
  unfold removeBotSys
  simp only [h1, h]
  rfl

lemma removeBotSys_eq {s : SysState} {b : Bot} (h : s.rs.bots.getLast? = some b) :
    removeBotSys s =
      { rs := orderSystemReducer s.rs .REMOVE_BOT,
        timers := syncTimers (orderSystemReducer s.rs .REMOVE_BOT).bots
          (fun i => if i = b.id then none else s.timers i) } := by
  unfold removeBotSys
  rw [h]

lemma tInv_init : TInv initSys :=
  ⟨coreInv_initial, fun _ => rfl⟩

lemma tInv_addOrder {s : SysState} (ty : OrderType) (now : Nat) (h : TInv s) :
    TInv (addOrderSys ty now s) := by
  have hcmid : CoreInv (addOrderMid s.rs ty now) := coreInv_addOrderMid ty now h.core
  have hcore : CoreInv (orderSystemReducer s.rs (.ADD_ORDER ty now)) :=
    coreInv_addOrder ty now h.core
  refine ⟨hcore, ?_⟩
  have hev : List.Forall₂ BotEvol s.rs.bots
      (orderSystemReducer s.rs (.ADD_ORDER ty now)).bots := by
    rw [reducer_addOrder]
    exact autoAssign_botEvol hcmid
  intro i
  exact timersOk_sync hcore.botsIdsNodup hev (hpre_of_timersOk h.tok) i

lemma tInv_addBot {s : SysState} (h : TInv s) : TInv (addBotSys s) := by
  have hcmid : CoreInv (addBotMid s.rs) := coreInv_addBotMid h.core
  have hcore : CoreInv (orderSystemReducer s.rs .ADD_BOT) := coreInv_addBot h.core
  refine ⟨hcore, ?_⟩
  have hev : List.Forall₂ BotEvol (addBotMid s.rs).bots
      (orderSystemReducer s.rs .ADD_BOT).bots := by
    rw [reducer_addBot]
    exact autoAssign_botEvol hcmid
  have hpre : ∀ j, s.timers j = none ∨ ∃ b0 ∈ (addBotMid s.rs).bots, b0.id = j ∧
      b0.status = BotStatus.PROCESSING ∧
      ∃ c0, b0.currentOrder = some c0 ∧ s.timers j = some c0.id := by
    intro j
    rcases hpre_of_timersOk h.tok j with hnone | ⟨b0, hb0m, hrest⟩
    · exact Or.inl hnone
    · exact Or.inr ⟨b0, List.mem_append_left _ hb0m, hrest⟩
  intro i
  exact timersOk_sync hcore.botsIdsNodup hev hpre i

lemma tInv_removeBot {s : SysState} (h : TInv s) : TInv (removeBotSys s) := by
  rcases hl : s.rs.bots.getLast? with _ | b
  · rw [removeBotSys_nil (List.getLast?_eq_none_iff.mp hl)]
    exact h
  · rw [removeBotSys_eq hl]
    have hcore : CoreInv (orderSystemReducer s.rs .REMOVE_BOT) := coreInv_removeBot h.core
    have hbots : (orderSystemReducer s.rs .REMOVE_BOT).bots = s.rs.bots.dropLast := by
      rw [reducer_removeBot_some hl]
    refine ⟨hcore, ?_⟩
    have hev : List.Forall₂ BotEvol (orderSystemReducer s.rs .REMOVE_BOT).bots
        (orderSystemReducer s.rs .REMOVE_BOT).bots :=
      List.forall₂_same.mpr (fun x _ => botEvol_refl x)
    have hpre : ∀ j, (if j = b.id then none else s.timers j) = none ∨
        ∃ b0 ∈ (orderSystemReducer s.rs .REMOVE_BOT).bots, b0.id = j ∧
          b0.status = BotStatus.PROCESSING ∧
          ∃ c0, b0.currentOrder = some c0 ∧
            (if j = b.id then none else s.timers j) = some c0.id := by
      intro j
      by_cases hj : j = b.id
      · left
        rw [if_pos hj]
      · rw [if_neg hj]
        rcases hpre_of_timersOk h.tok j with hnone | ⟨b0, hb0m, hb0id, hrest⟩
        · exact Or.inl hnone
        · right
          refine ⟨b0, ?_, hb0id, hrest⟩
          rw [hbots]
          rw [getLast?_decomp hl] at hb0m
          rcases List.mem_append.mp hb0m with hm | hm
          · exact hm
          · exfalso
            have : b0 = b := by simpa using hm
            rw [this] at hb0id
            rw [hb0id] at hj
            exact hj rfl
    intro i
    exact timersOk_sync hcore.botsIdsNodup hev hpre i

lemma tInv_fire {s : SysState} (botId now : Nat) (h : TInv s) :
    TInv (fireSys botId now s) := by
  rcases hT : s.timers botId with _ | orderId
  · rw [fireSys_none hT]
    exact h
  · obtain ⟨bb, hbbm, hbbid, hbbst, c, hbbc, hcid⟩ := timer_valid h.tok hT
    have hval : ∃ bb ∈ s.rs.bots, bb.id = botId ∧
        ∃ c, bb.currentOrder = some c ∧ c.id = orderId :=
      ⟨bb, hbbm, hbbid, c, hbbc, hcid⟩
    have hcmid := coreInv_completeMid now h.core hval
    have hcore : CoreInv (orderSystemReducer s.rs (.COMPLETE_ORDER orderId botId now)) :=
      coreInv_complete now h.core hval
    rw [fireSys_some now hT]
    refine ⟨hcore, ?_⟩
    have hev : List.Forall₂ BotEvol (completeMid s.rs orderId botId now).bots
        (orderSystemReducer s.rs (.COMPLETE_ORDER orderId botId now)).bots := by
      rw [reducer_complete]
      exact autoAssign_botEvol hcmid
    have hpre : ∀ j, (if j = botId then none else s.timers j) = none ∨
        ∃ b0 ∈ (completeMid s.rs orderId botId now).bots, b0.id = j ∧
          b0.status = BotStatus.PROCESSING ∧
          ∃ c0, b0.currentOrder = some c0 ∧
            (if j = botId then none else s.timers j) = some c0.id := by
      intro j
      by_cases hj : j = botId
      · left
        rw [if_pos hj]
      · rw [if_neg hj]
        rcases hpre_of_timersOk h.tok j with hnone | ⟨b0, hb0m, hb0id, hb0st, c0, hb0c, hti⟩
        · exact Or.inl hnone
        · right
          refine ⟨b0, ?_, hb0id, hb0st, c0, hb0c, hti⟩
          show b0 ∈ s.rs.bots.map _
          have hkeep : (fun bb2 => if bb2.id = botId then
              { bb2 with status := BotStatus.IDLE, currentOrder := none }
              else bb2) b0 = b0 := by
            simp only []
            rw [if_neg (by rw [hb0id]; exact hj)]
          rw [← hkeep]
          exact List.mem_map_of_mem _ hb0m
    intro i
    exact timersOk_sync hcore.botsIdsNodup hev hpre i

lemma tInv_step {s : SysState} (h : TInv s) (e : Event) : TInv (stepSys s e) := by
  cases e with
  | addOrder ty now => exact tInv_addOrder ty now h
  | addBot => exact tInv_addBot h
  | removeBot => exact tInv_removeBot h
  | fire b now => exact tInv_fire b now h

/-- Every state reachable from the initial system state by a sequence of
events satisfies the invariant. -/
lemma tInv_run (t : List Event) : TInv (run t) := by
  have hgen : ∀ (u : List Event) (s0 : SysState), TInv s0 → TInv (u.foldl stepSys s0) := by
    intro u
    induction u with
    | nil => intro s0 h; exact h
    | cons e u ih => intro s0 h; exact ih _ (tInv_step h e)
  exact hgen t initSys tInv_init

/-!  Concrete event traces used by the claim scenarios. -/

/-- Two bots; two orders (each assigned); bot 1 completes; the busy bot 2 is
removed while bot 1 is idle. -/
def traceA : List Event :=
  [.addBot, .addBot, .addOrder OrderType.NORMAL 0, .addOrder OrderType.NORMAL 1,
   .fire 1 10, .removeBot]

/-- Three bots; three orders; bot 1 completes; the busy bot 3 is removed,
leaving bot 1 idle, bot 2 busy with order 2, and order 3 pending. -/
def traceB : List Event :=
  [.addBot, .addBot, .addBot, .addOrder OrderType.NORMAL 0,
   .addOrder OrderType.NORMAL 1, .addOrder OrderType.NORMAL 2,
   .fire 1 10, .removeBot]

/-- Submit NORMAL, NORMAL, VIP with no workers. -/
def traceC : List Event :=
  [.addOrder OrderType.NORMAL 0, .addOrder OrderType.NORMAL 1,
   .addOrder OrderType.VIP 2]

/-- Add one worker, then submit one NORMAL job. -/
def traceD : List Event := [.addBot, .addOrder OrderType.NORMAL 0]

/-- Two workers, two NORMAL jobs, both assigned. -/
def traceE : List Event :=
  [.addBot, .addBot, .addOrder OrderType.NORMAL 0, .addOrder OrderType.NORMAL 1]

/-!  Claim theorems. -/

/-- C1 (counterexample): the work-conserving invariant as stated is false:
after the reachable trace traceA, whose last event is a removeWorker, an
IDLE worker and a PENDING job coexist (REMOVE_BOT runs no assignment pass). -/
theorem c1_counterexample :
    (∃ b ∈ (run traceA).rs.bots, b.status = BotStatus.IDLE) ∧
      (∃ o ∈ (run traceA).rs.orders, o.status = OrderStatus.PENDING) := by
  decide

/-- C1 (amended): after every submitJob (ADD_ORDER), addWorker (ADD_BOT) and
completion (COMPLETE_ORDER) event the work-conserving property holds — there
is no IDLE worker or no PENDING job — because these events end with the
assignment pass; after removeWorker (REMOVE_BOT) it can fail, since that
event runs no assignment pass (see the counterexample). -/
theorem c1_work_conserving_amended :
    (∀ (s : OrderSystemState) (ty : OrderType) (now : Nat),
      findIdleBot (orderSystemReducer s (.ADD_ORDER ty now)).bots = none ∨
        findNextPendingOrder (orderSystemReducer s (.ADD_ORDER ty now)).orders = none) ∧
    (∀ s : OrderSystemState,
      findIdleBot (orderSystemReducer s .ADD_BOT).bots = none ∨
        findNextPendingOrder (orderSystemReducer s .ADD_BOT).orders = none) ∧
    (∀ (s : OrderSystemState) (orderId botId now : Nat),
      findIdleBot (orderSystemReducer s (.COMPLETE_ORDER orderId botId now)).bots = none ∨
        findNextPendingOrder
          (orderSystemReducer s (.COMPLETE_ORDER orderId botId now)).orders = none) := by
  refine ⟨?_, ?_, ?_⟩
  · intro s ty now
    rw [reducer_addOrder]
    exact autoAssign_post _
  · intro s
    rw [reducer_addBot]
    exact autoAssign_post _
  · intro s orderId botId now
    rw [reducer_complete]
    exact autoAssign_post _

/-- C2: in every state reachable by any event sequence, the subsequence of
PENDING and PROCESSING orders is priority-ordered: every VIP order comes
before every NORMAL order, and identifiers (equal to submission rank)
increase within each tier. -/
theorem c2_ordering_invariant (t : List Event) : orderedLive (run t).rs.orders :=
  (tInv_run t).core.ordered

/-- C3: a VIP order is inserted immediately after the last order that is VIP
and PENDING-or-PROCESSING (a COMPLETE VIP order never anchors the insertion
point, and with no live VIP anchor the order goes to the front); a NORMAL
order is always appended at the end; submitting NORMAL, NORMAL, VIP with no
workers yields pending identifiers 3, 1, 2. -/
theorem c3_priority_insertion :
    (∀ (orders : List Order) (newOrder : Order), newOrder.type = OrderType.VIP →
      ∃ l₁ l₂, orders = l₁ ++ l₂ ∧
        insertOrderByPriority orders newOrder = l₁ ++ newOrder :: l₂ ∧
        (∀ x ∈ l₂, isLiveVip x = false) ∧
        (l₁ = [] ∨ ∃ init v, l₁ = init ++ [v] ∧ isLiveVip v = true)) ∧
    (∀ (orders : List Order) (newOrder : Order), newOrder.type = OrderType.NORMAL →
      insertOrderByPriority orders newOrder = orders ++ [newOrder]) ∧
    (pendingOrders (run traceC).rs).map Order.id = [3, 1, 2] := by
  refine ⟨?_, ?_, ?_⟩
  · intro orders newOrder hv
    rw [insertOrderByPriority_vip hv]
    exact insertSpec_split orders newOrder
  · intro orders newOrder hn
    exact insertOrderByPriority_normal hn
  · decide

/-- C3 (witness): the two insertion rules applied at concrete inputs, and
the concrete scenario. -/
theorem c3_priority_insertion_witness :
    (∃ l₁ l₂,
      [⟨1, OrderType.NORMAL, OrderStatus.PENDING, 0, none⟩] = l₁ ++ l₂ ∧
      insertOrderByPriority [⟨1, OrderType.NORMAL, OrderStatus.PENDING, 0, none⟩]
          ⟨2, OrderType.VIP, OrderStatus.PENDING, 1, none⟩ =
        l₁ ++ (⟨2, OrderType.VIP, OrderStatus.PENDING, 1, none⟩ : Order) :: l₂ ∧
      (∀ x ∈ l₂, isLiveVip x = false) ∧
      (l₁ = [] ∨ ∃ init v, l₁ = init ++ [v] ∧ isLiveVip v = true)) ∧
    insertOrderByPriority [⟨1, OrderType.NORMAL, OrderStatus.PENDING, 0, none⟩]
        ⟨2, OrderType.NORMAL, OrderStatus.PENDING, 1, none⟩ =
      [⟨1, OrderType.NORMAL, OrderStatus.PENDING, 0, none⟩] ++
        [⟨2, OrderType.NORMAL, OrderStatus.PENDING, 1, none⟩] ∧
    (pendingOrders (run traceC).rs).map Order.id = [3, 1, 2] :=
  ⟨c3_priority_insertion.1 _ _ rfl, c3_priority_insertion.2.1 _ _ rfl,
    c3_priority_insertion.2.2⟩

/-- C4: stale completions are no-ops.  In every reachable system state:
if no worker with the given id exists, the completion fire event for that id
leaves the state unchanged; a scheduled completion always carries exactly
the job currently referenced by its PROCESSING worker (so a completion for a
job the worker no longer references is never scheduled — removal and
reassignment cancel it); consequently, removing a BUSY worker returns its
job to PENDING, clears the timer of that worker, and the previously scheduled
completion fires as a no-op and never marks that job DONE. -/
theorem c4_stale_completion_noop :
    (∀ (t : List Event) (botId now : Nat),
      (∀ bb ∈ (run t).rs.bots, bb.id ≠ botId) →
      fireSys botId now (run t) = run t) ∧
    (∀ (t : List Event) (botId orderId : Nat),
      (run t).timers botId = some orderId →
      ∀ bb ∈ (run t).rs.bots, bb.id = botId →
        bb.status = BotStatus.PROCESSING ∧
          ∃ c, bb.currentOrder = some c ∧ c.id = orderId) ∧
    (∀ (t : List Event) (b : Bot) (cur : Order) (now : Nat),
      (run t).rs.bots.getLast? = some b → b.currentOrder = some cur →
      (∃ o ∈ (removeBotSys (run t)).rs.orders,
        o.id = cur.id ∧ o.status = OrderStatus.PENDING) ∧
      (removeBotSys (run t)).timers b.id = none ∧
      fireSys b.id now (removeBotSys (run t)) = removeBotSys (run t)) := by
  refine ⟨?_, ?_, ?_⟩
  · intro t botId now hno
    rcases hT : (run t).timers botId with _ | orderId
    · exact fireSys_none hT
    · exfalso
      obtain ⟨bb, hbm, hbid, _⟩ := timer_valid (tInv_run t).tok hT
      exact hno bb hbm hbid
  · intro t botId orderId hT bb hbm hbid
    obtain ⟨bb2, hbm2, hbid2, hst2, c2, hco2, hcid2⟩ := timer_valid (tInv_run t).tok hT
    have hbe : bb = bb2 := (tInv_run t).core.bot_eq_of_id hbm hbm2 (by rw [hbid, hbid2])
    subst hbe
    exact ⟨hst2, c2, hco2, hcid2⟩
  · intro t b cur now hl hc
    have hinv := tInv_run t
    have hbm : b ∈ (run t).rs.bots := mem_of_getLast?_eq hl
    obtain ⟨o0, ho0m, ho0id, ho0st⟩ := hinv.core.botRef b hbm cur hc
    have hcore : CoreInv (orderSystemReducer (run t).rs .REMOVE_BOT) :=
      coreInv_removeBot hinv.core
    have hbots : (orderSystemReducer (run t).rs .REMOVE_BOT).bots =
        (run t).rs.bots.dropLast := by
      rw [reducer_removeBot_some hl]
    have htnone : (removeBotSys (run t)).timers b.id = none := by
      rw [removeBotSys_eq hl]
      show syncTimers (orderSystemReducer (run t).rs .REMOVE_BOT).bots _ b.id = none
      rw [syncTimers_not_mem]
      · rw [if_pos rfl]
      · intro b2 hb2 he
        rw [hbots] at hb2
        have hb2ne : b2 ≠ b := ne_last_of_mem_dropLast hinv.core hl hb2
        exact hb2ne (hinv.core.bot_eq_of_id ((List.dropLast_sublist _).mem hb2) hbm he)
    refine ⟨?_, htnone, fireSys_none htnone⟩
    rw [removeBotSys_eq hl]
    show ∃ o ∈ (orderSystemReducer (run t).rs .REMOVE_BOT).orders, _
    rw [reducer_removeBot_busy hl hc]
    refine ⟨(fun o => if o.id = cur.id then { o with status := OrderStatus.PENDING }
      else o) o0, List.mem_map_of_mem _ ho0m, ?_⟩
    simp [ho0id]

/-- C4 (witness): the stale-completion properties at concrete inputs: firing
for a nonexistent worker id 5 is a no-op; the scheduled completion for
worker 1 matches its current job 1; removing the busy worker returns job 1
to PENDING and its completion never fires. -/
theorem c4_stale_completion_noop_witness :
    fireSys 5 7 (run traceD) = run traceD ∧
    (∀ bb ∈ (run traceD).rs.bots, bb.id = 1 →
      bb.status = BotStatus.PROCESSING ∧
        ∃ c, bb.currentOrder = some c ∧ c.id = 1) ∧
    ((∃ o ∈ (removeBotSys (run traceD)).rs.orders,
        o.id = 1 ∧ o.status = OrderStatus.PENDING) ∧
      (removeBotSys (run traceD)).timers 1 = none ∧
      fireSys 1 99 (removeBotSys (run traceD)) = removeBotSys (run traceD)) := by
  refine ⟨?_, ?_, ?_⟩
  · exact c4_stale_completion_noop.1 traceD 5 7 (by decide)
  · exact c4_stale_completion_noop.2.1 traceD 1 1 (by decide)
  · exact c4_stale_completion_noop.2.2 traceD
      ⟨1, BotStatus.PROCESSING,
        some ⟨1, OrderType.NORMAL, OrderStatus.PROCESSING, 0, none⟩⟩
      ⟨1, OrderType.NORMAL, OrderStatus.PROCESSING, 0, none⟩ 99 (by decide) (by decide)

/-- C5: removeWorker removes exactly the last worker, which in every
reachable state is the one with the highest identifier; if it held a job,
that job is set back to PENDING in place by a positional map over the
sequence (all other jobs keep their entries), every other worker survives
unchanged, the current job of any other worker stays PROCESSING, and both
identifier counters are unchanged; a worker holding nothing changes no
order. -/
theorem c5_removeWorker_frame :
    ∀ (t : List Event) (b : Bot), (run t).rs.bots.getLast? = some b →
      (∀ b2 ∈ (run t).rs.bots.dropLast, b2.id < b.id) ∧
      (orderSystemReducer (run t).rs .REMOVE_BOT).bots = (run t).rs.bots.dropLast ∧
      (orderSystemReducer (run t).rs .REMOVE_BOT).orderIdCounter =
        (run t).rs.orderIdCounter ∧
      (orderSystemReducer (run t).rs .REMOVE_BOT).botIdCounter =
        (run t).rs.botIdCounter ∧
      (∀ cur, b.currentOrder = some cur →
        (orderSystemReducer (run t).rs .REMOVE_BOT).orders =
          (run t).rs.orders.map (fun o =>
            if o.id = cur.id then { o with status := OrderStatus.PENDING } else o) ∧
        (∃ o ∈ (orderSystemReducer (run t).rs .REMOVE_BOT).orders,
          o.id = cur.id ∧ o.status = OrderStatus.PENDING) ∧
        (∀ o ∈ (run t).rs.orders, o.id ≠ cur.id →
          o ∈ (orderSystemReducer (run t).rs .REMOVE_BOT).orders) ∧
        (∀ b2 ∈ (run t).rs.bots.dropLast, ∀ c2, b2.currentOrder = some c2 →
          ∃ o ∈ (orderSystemReducer (run t).rs .REMOVE_BOT).orders,
            o.id = c2.id ∧ o.status = OrderStatus.PROCESSING)) ∧
      (b.currentOrder = none →
        (orderSystemReducer (run t).rs .REMOVE_BOT).orders = (run t).rs.orders) := by
  intro t b hl
  have hinv := tInv_run t
  have hbm : b ∈ (run t).rs.bots := mem_of_getLast?_eq hl
  have hdec := getLast?_decomp hl
  refine ⟨?_, ?_, ?_, ?_, ?_, ?_⟩
  · intro b2 hb2
    have hsorted := hinv.core.botsSorted
    rw [hdec] at hsorted
    exact (List.pairwise_append.mp hsorted).2.2 b2 hb2 b (List.mem_cons_self _ _)
  · rw [reducer_removeBot_some hl]
  · rw [reducer_removeBot_some hl]
  · rw [reducer_removeBot_some hl]
  · intro cur hc
    obtain ⟨o0, ho0m, ho0id, ho0st⟩ := hinv.core.botRef b hbm cur hc
    refine ⟨by rw [reducer_removeBot_busy hl hc], ?_, ?_, ?_⟩
    · rw [reducer_removeBot_busy hl hc]
      refine ⟨(fun o => if o.id = cur.id then { o with status := OrderStatus.PENDING }
        else o) o0, List.mem_map_of_mem _ ho0m, ?_⟩
      simp [ho0id]
    · intro o hom hone
      rw [reducer_removeBot_busy hl hc]
      have : (fun o2 => if o2.id = cur.id then { o2 with status := OrderStatus.PENDING }
          else o2) o = o := by
        simp [hone]
      rw [← this]
      exact List.mem_map_of_mem _ hom
    · intro b2 hb2 c2 hc2
      have hcore := coreInv_removeBot hinv.core
      apply hcore.botRef b2 _ c2 hc2
      rw [reducer_removeBot_some hl]
      exact hb2
  · intro hc
    rw [reducer_removeBot_idle hl hc]

/-- C5 (witness): the removal frame at the concrete state reached by two
addWorker and two submitJob events — the removed worker is the bot with
id 2, its job 2 returns to PENDING, and bot 1 keeps processing job 1. -/
theorem c5_removeWorker_frame_witness :
    (∀ b2 ∈ (run traceE).rs.bots.dropLast,
      b2.id < (⟨2, BotStatus.PROCESSING,
        some ⟨2, OrderType.NORMAL, OrderStatus.PROCESSING, 1, none⟩⟩ : Bot).id) ∧
    (orderSystemReducer (run traceE).rs .REMOVE_BOT).bots =
      (run traceE).rs.bots.dropLast ∧
    (orderSystemReducer (run traceE).rs .REMOVE_BOT).orderIdCounter =
      (run traceE).rs.orderIdCounter ∧
    (orderSystemReducer (run traceE).rs .REMOVE_BOT).botIdCounter =
      (run traceE).rs.botIdCounter ∧
    (∀ cur, (⟨2, BotStatus.PROCESSING,
        some ⟨2, OrderType.NORMAL, OrderStatus.PROCESSING, 1, none⟩⟩ : Bot).currentOrder =
          some cur →
      (orderSystemReducer (run traceE).rs .REMOVE_BOT).orders =
        (run traceE).rs.orders.map (fun o =>
          if o.id = cur.id then { o with status := OrderStatus.PENDING } else o) ∧
      (∃ o ∈ (orderSystemReducer (run traceE).rs .REMOVE_BOT).orders,
        o.id = cur.id ∧ o.status = OrderStatus.PENDING) ∧
      (∀ o ∈ (run traceE).rs.orders, o.id ≠ cur.id →
        o ∈ (orderSystemReducer (run traceE).rs .REMOVE_BOT).orders) ∧
      (∀ b2 ∈ (run traceE).rs.bots.dropLast, ∀ c2, b2.currentOrder = some c2 →
        ∃ o ∈ (orderSystemReducer (run traceE).rs .REMOVE_BOT).orders,
          o.id = c2.id ∧ o.status = OrderStatus.PROCESSING)) ∧
    ((⟨2, BotStatus.PROCESSING,
        some ⟨2, OrderType.NORMAL, OrderStatus.PROCESSING, 1, none⟩⟩ : Bot).currentOrder =
          none →
      (orderSystemReducer (run traceE).rs .REMOVE_BOT).orders = (run traceE).rs.orders) :=
  c5_removeWorker_frame traceE
    ⟨2, BotStatus.PROCESSING,
      some ⟨2, OrderType.NORMAL, OrderStatus.PROCESSING, 1, none⟩⟩ (by decide)

/-- C6: removeWorker on an empty pool is a total no-op: at the hook level
the whole system state (including the timer map) is unchanged, and at the
reducer level the state (orders, bots, both counters) is returned as is. -/
theorem c6_removeWorker_empty :
    ∀ s : SysState, s.rs.bots = [] →
      removeBotSys s = s ∧ orderSystemReducer s.rs .REMOVE_BOT = s.rs :=
  fun s h => ⟨removeBotSys_nil h, reducer_removeBot_nil _ h⟩

/-- C6 (witness): removing a worker from the initial empty system changes
nothing. -/
theorem c6_removeWorker_empty_witness :
    removeBotSys initSys = initSys ∧
      orderSystemReducer initialState .REMOVE_BOT = initialState :=
  c6_removeWorker_empty initSys rfl

/-!  Counter bookkeeping along a trace, for the identifier claim. -/

lemma step_counters (s : SysState) (e : Event) :
    (stepSys s e).rs.orderIdCounter =
      s.rs.orderIdCounter + (match e with | .addOrder _ _ => 1 | _ => 0) ∧
    (stepSys s e).rs.botIdCounter =
      s.rs.botIdCounter + (match e with | .addBot => 1 | _ => 0) := by
  cases e with
  | addOrder ty now =>
    constructor
    · show (orderSystemReducer s.rs (.ADD_ORDER ty now)).orderIdCounter = _
      rw [reducer_addOrder]
      exact (autoAssignOrders_counters _).1
    · show (orderSystemReducer s.rs (.ADD_ORDER ty now)).botIdCounter = _
      rw [reducer_addOrder]
      exact (autoAssignOrders_counters _).2
  | addBot =>
    constructor
    · show (orderSystemReducer s.rs .ADD_BOT).orderIdCounter = _
      rw [reducer_addBot]
      exact (autoAssignOrders_counters _).1
    · show (orderSystemReducer s.rs .ADD_BOT).botIdCounter = _
      rw [reducer_addBot]
      exact (autoAssignOrders_counters _).2
  | removeBot =>
    rcases hl : s.rs.bots.getLast? with _ | b
    · rw [show stepSys s .removeBot = removeBotSys s from rfl,
        removeBotSys_nil (List.getLast?_eq_none_iff.mp hl)]
      exact ⟨rfl, rfl⟩
    · rw [show stepSys s .removeBot = removeBotSys s from rfl, removeBotSys_eq hl]
      constructor
      · show (orderSystemReducer s.rs .REMOVE_BOT).orderIdCounter = _
        rw [reducer_removeBot_some hl]
        rfl
      · show (orderSystemReducer s.rs .REMOVE_BOT).botIdCounter = _
        rw [reducer_removeBot_some hl]
        rfl
  | fire botId now =>
    rcases hT : s.timers botId with _ | orderId
    · rw [show stepSys s (.fire botId now) = fireSys botId now s from rfl, fireSys_none hT]
      exact ⟨rfl, rfl⟩
    · rw [show stepSys s (.fire botId now) = fireSys botId now s from rfl,
        fireSys_some now hT]
      constructor
      · show (orderSystemReducer s.rs (.COMPLETE_ORDER orderId botId now)).orderIdCounter = _
        rw [reducer_complete]
        exact (autoAssignOrders_counters _).1
      · show (orderSystemReducer s.rs (.COMPLETE_ORDER orderId botId now)).botIdCounter = _
        rw [reducer_complete]
        exact (autoAssignOrders_counters _).2

lemma run_counters (t : List Event) :
    (run t).rs.orderIdCounter = 1 + countAddOrder t ∧
      (run t).rs.botIdCounter = 1 + countAddBot t := by
  have hgen : ∀ (u : List Event) (s0 : SysState),
      (u.foldl stepSys s0).rs.orderIdCounter = s0.rs.orderIdCounter + countAddOrder u ∧
      (u.foldl stepSys s0).rs.botIdCounter = s0.rs.botIdCounter + countAddBot u := by
    intro u
    induction u with
    | nil => intro s0; exact ⟨rfl, rfl⟩
    | cons e u ih =>
      intro s0
      obtain ⟨ih1, ih2⟩ := ih (stepSys s0 e)
      obtain ⟨hs1, hs2⟩ := step_counters s0 e
      constructor
      · show (u.foldl stepSys (stepSys s0 e)).rs.orderIdCounter = _
        rw [ih1, hs1]
        unfold countAddOrder
        rw [List.countP_cons]
        cases e <;> simp <;> omega
      · show (u.foldl stepSys (stepSys s0 e)).rs.botIdCounter = _
        rw [ih2, hs2]
        unfold countAddBot
        rw [List.countP_cons]
        cases e <;> simp <;> omega
  obtain ⟨h1, h2⟩ := hgen t initSys
  exact ⟨h1, h2⟩

lemma run_append_one (t : List Event) (e : Event) :
    run (t ++ [e]) = stepSys (run t) e := by
  unfold run
  rw [List.foldl_append]
  rfl

/-- C7: identifier allocation.  After any event trace, the order counter is
one plus the number of submissions and the bot counter one plus the number
of worker additions; the order identifiers present are exactly 1..N for N
submissions (so the Nth submission received identifier N, never reused);
worker identifiers strictly increase along the pool and stay below the
counter; the next submission receives identifier N+1, and a worker addition
appends exactly identifier M+1 after M additions (so identifiers of removed
workers are never reassigned). -/
theorem c7_identifier_allocation :
    ∀ t : List Event,
      (run t).rs.orderIdCounter = 1 + countAddOrder t ∧
      (run t).rs.botIdCounter = 1 + countAddBot t ∧
      ((run t).rs.orders.map Order.id).Perm (List.range' 1 (countAddOrder t)) ∧
      ((run t).rs.bots.map Bot.id).Pairwise (fun a b => a < b) ∧
      (∀ b ∈ (run t).rs.bots, b.id < 1 + countAddBot t) ∧
      (∀ (ty : OrderType) (now : Nat),
        ∃ o ∈ (run (t ++ [.addOrder ty now])).rs.orders, o.id = 1 + countAddOrder t) ∧
      ((run (t ++ [.addBot])).rs.bots.map Bot.id =
        (run t).rs.bots.map Bot.id ++ [1 + countAddBot t]) := by
  intro t
  obtain ⟨hc1, hc2⟩ := run_counters t
  have hinv := tInv_run t
  refine ⟨hc1, hc2, ?_, ?_, ?_, ?_, ?_⟩
  · have := hinv.core.ordersPerm
    rw [hc1] at this
    simpa using this
  · rw [List.pairwise_map]
    exact hinv.core.botsSorted
  · intro b hb
    have := hinv.core.botsIdLt b hb
    rw [hc2] at this
    exact this
  · intro ty now
    rw [run_append_one]
    show ∃ o ∈ (orderSystemReducer (run t).rs (.ADD_ORDER ty now)).orders, _
    rw [reducer_addOrder]
    have hids := (autoAssignOrders_ids (addOrderMid (run t).rs ty now)).1
    have hmem : (newOrderOf (run t).rs ty now).id ∈
        (autoAssignOrders (addOrderMid (run t).rs ty now)).orders.map Order.id := by
      rw [hids]
      show _ ∈ (insertOrderByPriority (run t).rs.orders _).map Order.id
      apply ((insertOrderByPriority_perm _ _).map Order.id).mem_iff.mpr
      rw [List.map_cons]
      exact List.mem_cons_self _ _
    obtain ⟨o, hom, hoid⟩ := List.mem_map.mp hmem
    refine ⟨o, hom, ?_⟩
    rw [hoid]
    show (run t).rs.orderIdCounter = 1 + countAddOrder t
    exact hc1
  · rw [run_append_one]
    show (orderSystemReducer (run t).rs .ADD_BOT).bots.map Bot.id = _
    rw [reducer_addBot]
    have hids := (autoAssignOrders_ids (addBotMid (run t).rs)).2
    rw [hids]
    show ((run t).rs.bots ++ [newBotOf (run t).rs]).map Bot.id = _
    rw [List.map_append]
    rw [show (List.map Bot.id [newBotOf (run t).rs]) = [(run t).rs.botIdCounter] from rfl]
    rw [hc2]

/-- A small state with one idle bot and one pending order, used as a witness
input. -/
def oneEachState : OrderSystemState :=
  { orders := [⟨1, OrderType.NORMAL, OrderStatus.PENDING, 0, none⟩],
    bots := [⟨1, BotStatus.IDLE, none⟩],
    orderIdCounter := 2, botIdCounter := 2 }

/-- C8: the assignment pass repeatedly binds the first idle bot (under the
sorted-identifier invariant: the idle bot of lowest identifier) to the first
PENDING order in sequence order via assignBind (order becomes PROCESSING,
bot becomes PROCESSING holding that order), stopping exactly when no idle
bot or no pending order remains; it runs synchronously inside the triggering
intent: after addWorker then submitJob(NORMAL), the worker is immediately
BUSY holding order 1 and its completion timer is scheduled. -/
theorem c8_assignment_selection :
    (∀ (s : OrderSystemState) (bot : Bot) (ord : Order),
      findIdleBot s.bots = some bot → findNextPendingOrder s.orders = some ord →
      autoAssignOrders s = autoAssignOrders (assignBind s bot ord)) ∧
    (∀ s : OrderSystemState,
      findIdleBot s.bots = none ∨ findNextPendingOrder s.orders = none →
      autoAssignOrders s = s) ∧
    (∀ (s : OrderSystemState) (bot : Bot),
      s.bots.Pairwise (fun a b => a.id < b.id) → findIdleBot s.bots = some bot →
      bot ∈ s.bots ∧ bot.status = BotStatus.IDLE ∧
        ∀ b2 ∈ s.bots, b2.status = BotStatus.IDLE → bot.id ≤ b2.id) ∧
    (∀ (orders : List Order) (ord : Order),
      findNextPendingOrder orders = some ord →
      ord.status = OrderStatus.PENDING ∧
        ∃ l₁ l₂, orders = l₁ ++ ord :: l₂ ∧
          ∀ x ∈ l₁, x.status ≠ OrderStatus.PENDING) ∧
    ((run traceD).rs.bots =
      [⟨1, BotStatus.PROCESSING,
        some ⟨1, OrderType.NORMAL, OrderStatus.PROCESSING, 0, none⟩⟩]) ∧
    (run traceD).timers 1 = some 1 := by
  refine ⟨?_, ?_, ?_, ?_, ?_, ?_⟩
  · intro s bot ord hfi hfp
    exact autoAssignOrders_step hfi hfp
  · intro s h
    exact autoAssignOrders_none h
  · intro s bot hsorted hfi
    obtain ⟨hbm, hbs⟩ := findIdleBot_some hfi
    refine ⟨hbm, hbs, ?_⟩
    unfold findIdleBot at hfi
    obtain ⟨l₁, l₂, hsplit, hfalse⟩ := find?_split hfi
    intro b2 hb2 hb2idle
    rw [hsplit] at hb2
    rcases List.mem_append.mp hb2 with hm | hm
    · exfalso
      have := hfalse b2 hm
      rw [decide_eq_true hb2idle] at this
      cases this
    · rcases List.mem_cons.mp hm with rfl | hm
      · exact le_refl _
      · rw [hsplit] at hsorted
        exact le_of_lt
          (((List.pairwise_cons.mp (List.pairwise_append.mp hsorted).2.1).1) b2 hm)
  · intro orders ord hfp
    obtain ⟨hom, hos⟩ := findNextPendingOrder_some hfp
    refine ⟨hos, ?_⟩
    unfold findNextPendingOrder at hfp
    obtain ⟨l₁, l₂, hsplit, hfalse⟩ := find?_split hfp
    refine ⟨l₁, l₂, hsplit, ?_⟩
    intro x hx hxp
    have := hfalse x hx
    rw [decide_eq_true hxp] at this
    cases this
  · decide
  · decide

/-- C8 (witness): the assignment-pass characterisation at concrete inputs:
one idle bot and one pending order. -/
theorem c8_assignment_selection_witness :
    autoAssignOrders oneEachState =
      autoAssignOrders (assignBind oneEachState ⟨1, BotStatus.IDLE, none⟩
        ⟨1, OrderType.NORMAL, OrderStatus.PENDING, 0, none⟩) ∧
    autoAssignOrders initialState = initialState ∧
    ((⟨1, BotStatus.IDLE, none⟩ : Bot) ∈ oneEachState.bots ∧
      (⟨1, BotStatus.IDLE, none⟩ : Bot).status = BotStatus.IDLE ∧
      ∀ b2 ∈ oneEachState.bots, b2.status = BotStatus.IDLE →
        (⟨1, BotStatus.IDLE, none⟩ : Bot).id ≤ b2.id) ∧
    ((⟨1, OrderType.NORMAL, OrderStatus.PENDING, 0, none⟩ : Order).status =
        OrderStatus.PENDING ∧
      ∃ l₁ l₂, oneEachState.orders =
          l₁ ++ (⟨1, OrderType.NORMAL, OrderStatus.PENDING, 0, none⟩ : Order) :: l₂ ∧
        ∀ x ∈ l₁, x.status ≠ OrderStatus.PENDING) ∧
    ((run traceD).rs.bots =
      [⟨1, BotStatus.PROCESSING,
        some ⟨1, OrderType.NORMAL, OrderStatus.PROCESSING, 0, none⟩⟩]) ∧
    (run traceD).timers 1 = some 1 :=
  ⟨c8_assignment_selection.1 oneEachState _ _ (by decide) (by decide),
    c8_assignment_selection.2.1 initialState (Or.inl (by decide)),
    c8_assignment_selection.2.2.1 oneEachState _ (by decide) (by decide),
    c8_assignment_selection.2.2.2.1 oneEachState.orders _ (by decide),
    c8_assignment_selection.2.2.2.2.1,
    c8_assignment_selection.2.2.2.2.2⟩

/-- C9 (counterexample): the claim that after a valid completion the freed
worker W is immediately re-bound to the first pending job is false: in the
reachable state after traceB, worker 2 is BUSY with job 2 (with its timer
scheduled) and job 3 is PENDING; processing the valid completion for
(worker 2, job 2) leaves worker 2 IDLE — worker 1, idle since the earlier
removal, receives job 3 instead. -/
theorem c9_counterexample :
    (∃ b ∈ (run traceB).rs.bots, b.id = 2 ∧ b.status = BotStatus.PROCESSING ∧
      ∃ c, b.currentOrder = some c ∧ c.id = 2) ∧
    (run traceB).timers 2 = some 2 ∧
    (∃ o ∈ (run traceB).rs.orders, o.id = 3 ∧ o.status = OrderStatus.PENDING) ∧
    (∃ b ∈ (run (traceB ++ [.fire 2 20])).rs.bots,
      b.id = 2 ∧ b.status = BotStatus.IDLE) ∧
    (∃ b ∈ (run (traceB ++ [.fire 2 20])).rs.bots,
      b.id = 1 ∧ ∃ c, b.currentOrder = some c ∧ c.id = 3) := by
  decide

/-- C9 (amended): a valid completion for (W, J) marks J COMPLETE with its
completion timestamp set, sets W to IDLE with no current order, and then
runs the assignment pass on that intermediate state; the pass repeatedly
binds the first idle worker in list order (the lowest-identifier idle
worker, by the sorted invariant) to the first pending job, so W is re-bound
to the first pending job whenever W is the first idle worker after
completing; when an idle worker precedes W (reachable after removeWorker,
which runs no pass), that worker receives the first pending job instead and
W can remain IDLE (see the counterexample). -/
theorem c9_completion_postcondition_amended :
    (∀ (s : OrderSystemState) (orderId botId now : Nat),
      orderSystemReducer s (.COMPLETE_ORDER orderId botId now) =
        autoAssignOrders (completeMid s orderId botId now)) ∧
    (∀ (t : List Event) (botId orderId now : Nat),
      (run t).timers botId = some orderId →
      (∃ o ∈ (completeMid (run t).rs orderId botId now).orders,
        o.id = orderId ∧ o.status = OrderStatus.COMPLETE ∧ o.completedAt = some now) ∧
      (∃ b ∈ (completeMid (run t).rs orderId botId now).bots,
        b.id = botId ∧ b.status = BotStatus.IDLE ∧ b.currentOrder = none)) ∧
    (∀ (s : OrderSystemState) (orderId botId now : Nat) (W2 : Bot) (j : Order),
      (s.bots.map Bot.id).Nodup →
      findIdleBot (completeMid s orderId botId now).bots = some W2 → W2.id = botId →
      findNextPendingOrder (completeMid s orderId botId now).orders = some j →
      ∃ b ∈ (orderSystemReducer s (.COMPLETE_ORDER orderId botId now)).bots,
        b.id = botId ∧ b.status = BotStatus.PROCESSING ∧
          ∃ c, b.currentOrder = some c ∧ c.id = j.id) := by
  refine ⟨?_, ?_, ?_⟩
  · intro s orderId botId now
    exact reducer_complete s orderId botId now
  · intro t botId orderId now hT
    obtain ⟨bb, hbm, hbid, hbst, c, hbc, hcid⟩ := timer_valid (tInv_run t).tok hT
    obtain ⟨o0, ho0m, ho0id, ho0st⟩ := (tInv_run t).core.botRef bb hbm c hbc
    constructor
    · show ∃ o ∈ (run t).rs.orders.map _, _
      refine ⟨(fun o => if o.id = orderId then
          { o with status := OrderStatus.COMPLETE, completedAt := some now } else o) o0,
        List.mem_map_of_mem _ ho0m, ?_⟩
      have ho0id2 : o0.id = orderId := by rw [ho0id, hcid]
      simp [ho0id2]
    · show ∃ b ∈ (run t).rs.bots.map _, _
      refine ⟨(fun b => if b.id = botId then
          { b with status := BotStatus.IDLE, currentOrder := none } else b) bb,
        List.mem_map_of_mem _ hbm, ?_⟩
      simp [hbid]
  · intro s orderId botId now W2 j hnd hfi hW2 hfp
    rw [reducer_complete, autoAssignOrders_step hfi hfp]
    have hndmid : ((completeMid s orderId botId now).bots.map Bot.id).Nodup := by
      show ((s.bots.map _).map Bot.id).Nodup
      rw [List.map_map]
      rw [show (Bot.id ∘ fun b => if b.id = botId then
          { b with status := BotStatus.IDLE, currentOrder := none } else b) =
          Bot.id from by
        funext a
        simp only [Function.comp]
        by_cases ha : a.id = botId <;> simp [ha]]
      exact hnd
    have hnd2 : ((assignBind (completeMid s orderId botId now) W2 j).bots.map
        Bot.id).Nodup := by
      rw [(assignBind_ids _ W2 j).2]
      exact hndmid
    have hev := autoAssign_botEvol_nodup hnd2
    obtain ⟨hW2m, hW2idle⟩ := findIdleBot_some hfi
    have hbWmem : ({ W2 with
        status := BotStatus.PROCESSING,
        currentOrder := some { j with status := OrderStatus.PROCESSING } } : Bot) ∈
        (assignBind (completeMid s orderId botId now) W2 j).bots := by
      show _ ∈ (completeMid s orderId botId now).bots.map _
      have hW2img : (fun b => if b.id = W2.id then
          { b with
            status := BotStatus.PROCESSING,
            currentOrder := some { j with status := OrderStatus.PROCESSING } }
          else b) W2 =
          { W2 with
            status := BotStatus.PROCESSING,
            currentOrder := some { j with status := OrderStatus.PROCESSING } } := by
        simp
      rw [← hW2img]
      exact List.mem_map_of_mem _ hW2m
    obtain ⟨b2, hb2m, hevb⟩ := forall₂_mem_left hev hbWmem
    have hbe : b2 = { W2 with
        status := BotStatus.PROCESSING,
        currentOrder := some { j with status := OrderStatus.PROCESSING } } := by
      rcases hevb.2 with he | ⟨hidle, _, _⟩
      · exact he
      · simp at hidle
    refine ⟨b2, hb2m, ?_, ?_, ?_⟩
    · rw [hbe]
      show W2.id = botId
      exact hW2
    · rw [hbe]
    · refine ⟨{ j with status := OrderStatus.PROCESSING }, ?_, rfl⟩
      rw [hbe]

/-- C9 (witness): the amended completion postcondition at concrete inputs:
the state after one addWorker and one submitJob (completion of job 1 by
worker 1), and a state where the freed worker is the first idle worker and
a job is pending, so it is re-bound. -/
theorem c9_completion_postcondition_amended_witness :
    (orderSystemReducer oneEachState (.COMPLETE_ORDER 1 1 5) =
      autoAssignOrders (completeMid oneEachState 1 1 5)) ∧
    ((∃ o ∈ (completeMid (run traceD).rs 1 1 20).orders,
        o.id = 1 ∧ o.status = OrderStatus.COMPLETE ∧ o.completedAt = some 20) ∧
      (∃ b ∈ (completeMid (run traceD).rs 1 1 20).bots,
        b.id = 1 ∧ b.status = BotStatus.IDLE ∧ b.currentOrder = none)) ∧
    (∃ b ∈ (orderSystemReducer
        { orders := [⟨1, OrderType.NORMAL, OrderStatus.PROCESSING, 0, none⟩,
            ⟨2, OrderType.NORMAL, OrderStatus.PENDING, 1, none⟩],
          bots := [⟨1, BotStatus.PROCESSING,
            some ⟨1, OrderType.NORMAL, OrderStatus.PROCESSING, 0, none⟩⟩],
          orderIdCounter := 3, botIdCounter := 2 }
        (.COMPLETE_ORDER 1 1 9)).bots,
      b.id = 1 ∧ b.status = BotStatus.PROCESSING ∧
        ∃ c, b.currentOrder = some c ∧
          c.id = (⟨2, OrderType.NORMAL, OrderStatus.PENDING, 1, none⟩ : Order).id) :=
  ⟨c9_completion_postcondition_amended.1 oneEachState 1 1 5,
    c9_completion_postcondition_amended.2.1 traceD 1 1 20 (by decide),
    c9_completion_postcondition_amended.2.2 _ 1 1 9 ⟨1, BotStatus.IDLE, none⟩
      ⟨2, OrderType.NORMAL, OrderStatus.PENDING, 1, none⟩
      (by decide) (by decide) (by decide) (by decide)⟩

/-- C10: termination of the assignment pass: every binding iteration
strictly decreases both the number of PENDING orders and the number of IDLE
bots, and the loop reaches its result within min(idle bots, pending orders)
iterations — any budget at least that bound computes autoAssignOrders. -/
theorem c10_assignment_terminates :
    (∀ (s : OrderSystemState) (bot : Bot) (ord : Order),
      findIdleBot s.bots = some bot → findNextPendingOrder s.orders = some ord →
      countPending (assignBind s bot ord).orders < countPending s.orders ∧
        countIdle (assignBind s bot ord).bots < countIdle s.bots) ∧
    (∀ (s : OrderSystemState) (fuel : Nat),
      min (countIdle s.bots) (countPending s.orders) ≤ fuel →
      autoAssignLoop fuel s = autoAssignOrders s) := by
  constructor
  · intro s bot ord hfi hfp
    exact ⟨countPending_assignBind_lt bot hfp, countIdle_assignBind_lt ord hfi⟩
  · intro s fuel hmin
    have h1 : autoAssignLoop fuel s =
        autoAssignLoop (min (countIdle s.bots) (countPending s.orders)) s :=
      autoAssignLoop_eq_of_le (le_refl _) hmin
    have h2 : autoAssignOrders s =
        autoAssignLoop (min (countIdle s.bots) (countPending s.orders)) s :=
      autoAssignLoop_eq_of_le (le_refl _) (min_le_right _ _)
    rw [h1, ← h2]

/-- C10 (witness): the strict decrease and the iteration bound at the
concrete one-idle-bot one-pending-order state. -/
theorem c10_assignment_terminates_witness :
    (countPending (assignBind oneEachState ⟨1, BotStatus.IDLE, none⟩
        ⟨1, OrderType.NORMAL, OrderStatus.PENDING, 0, none⟩).orders <
      countPending oneEachState.orders ∧
      countIdle (assignBind oneEachState ⟨1, BotStatus.IDLE, none⟩
        ⟨1, OrderType.NORMAL, OrderStatus.PENDING, 0, none⟩).bots <
        countIdle oneEachState.bots) ∧
    autoAssignLoop 3 oneEachState = autoAssignOrders oneEachState :=
  ⟨c10_assignment_terminates.1 oneEachState _ _ (by decide) (by decide),
    c10_assignment_terminates.2 oneEachState 3 (by decide)⟩

end FeedMe
